import Mathlib

/-!
Verification of the RustyTerramine chunk subsystem: spatial index,
borrow tracker, chunk arena with handle lifecycle, and mesh builder.
Definitions are shallow embeddings of the Rust source
(`src/app/utils/terrain/chunk/array.rs`, `src/app/utils/iterator.rs`,
`src/app/utils/terrain/chunk/mesh.rs`).  Collaborators whose source is
not available (the `Chunk` voxel storage itself) are modelled from the
specification and marked as such in their doc comments.
-/

namespace Terramine

/-- Signed 3-D integer vector, embedding `IVec3`/`Int3` (i32 components). -/
structure IVec3 where
  x : Int
  y : Int
  z : Int
deriving DecidableEq, Repr

/-- Unsigned 3-D vector, embedding `USize3`/`U64Vec3`. -/
structure UVec3 where
  x : Nat
  y : Nat
  z : Nat
deriving DecidableEq, Repr

def IVec3.splat (v : Int) : IVec3 := ⟨v, v, v⟩

def IVec3.add (a b : IVec3) : IVec3 := ⟨a.x + b.x, a.y + b.y, a.z + b.z⟩

instance : Add IVec3 := ⟨IVec3.add⟩

def IVec3.smul (a : IVec3) (k : Int) : IVec3 := ⟨a.x * k, a.y * k, a.z * k⟩

/-- `USize3::volume` / `sizes.volume()`: product of the components. -/
def UVec3.volume (s : UVec3) : Nat := s.x * s.y * s.z

/-- Embedding of `sdex::get_index(pos, dims)` from `iterator.rs`:
`pos.iter().zip(dims).skip(1).fold(pos[0], |accum, (p, d)| d * accum + p)`. -/
def get_index (pos dims : List Nat) : Nat :=
  (((pos.zip dims).drop 1).foldl (fun accum pd => pd.2 * accum + pd.1)
    (pos.headD 0))

/-- Embedding of `linear_index_to_volume(idx, sizes)` from `iterator.rs`:
`xy = idx / sizes.z; z = idx % sizes.z; y = xy % sizes.y; x = xy / sizes.y`. -/
def linear_index_to_volume (idx : Nat) (sizes : UVec3) : UVec3 :=
  let xy := idx / sizes.z
  let z := idx % sizes.z
  let y := xy % sizes.y
  let x := xy / sizes.y
  ⟨x, y, z⟩

/-- Embedding of `ChunkArray::volume_index_to_linear(sizes, coord_idx)`:
`sdex::get_index(&coord_idx.as_array(), &sizes.as_array())`. -/
def volume_index_to_linear (sizes coordIdx : UVec3) : Nat :=
  get_index [coordIdx.x, coordIdx.y, coordIdx.z] [sizes.x, sizes.y, sizes.z]

theorem volume_index_to_linear_eq (sizes p : UVec3) :
    volume_index_to_linear sizes p = (p.x * sizes.y + p.y) * sizes.z + p.z := by
  simp only [volume_index_to_linear, get_index, List.zip, List.zipWith,
    List.drop, List.foldl, List.headD]
  ring

/-- Componentwise strict bound: each component of `p` below that of `s`. -/
def UVec3.below (p s : UVec3) : Prop := p.x < s.x ∧ p.y < s.y ∧ p.z < s.z

instance (p s : UVec3) : Decidable (p.below s) := by
  unfold UVec3.below; infer_instance

theorem nat_encode_decode (sy sz idx : Nat) (hy : 0 < sy) (hz : 0 < sz) :
    (idx / sz / sy * sy + idx / sz % sy) * sz + idx % sz = idx := by
  have e1 : sy * (idx / sz / sy) + idx / sz % sy = idx / sz :=
    Nat.div_add_mod _ _
  have e2 : sz * (idx / sz) + idx % sz = idx := Nat.div_add_mod _ _
  calc (idx / sz / sy * sy + idx / sz % sy) * sz + idx % sz
      = (sy * (idx / sz / sy) + idx / sz % sy) * sz + idx % sz := by ring
    _ = sz * (idx / sz) + idx % sz := by rw [e1]; ring
    _ = idx := e2

theorem nat_decode_encode_div (sy sz px py pz : Nat)
    (h2 : py < sy) (h3 : pz < sz) :
    ((px * sy + py) * sz + pz) / sz = px * sy + py := by
  rw [Nat.mul_comm (px * sy + py) sz, Nat.mul_add_div (by omega : 0 < sz),
    Nat.div_eq_of_lt h3]
  simp

theorem nat_decode_encode_mod (sy sz px py pz : Nat) (h3 : pz < sz) :
    ((px * sy + py) * sz + pz) % sz = pz := by
  rw [Nat.add_comm, Nat.add_mul_mod_self_right, Nat.mod_eq_of_lt h3]

theorem nat_encode_lt (sx sy sz px py pz : Nat)
    (h1 : px < sx) (h2 : py < sy) (h3 : pz < sz) :
    (px * sy + py) * sz + pz < sx * sy * sz := by
  calc (px * sy + py) * sz + pz
      < (px * sy + py + 1) * sz := by nlinarith
    _ ≤ (sx * sy) * sz := by
        have hle : px * sy + py + 1 ≤ sx * sy := by nlinarith
        exact Nat.mul_le_mul_right sz hle
    _ = sx * sy * sz := by ring

theorem linear_index_to_volume_below (idx : Nat) (s : UVec3)
    (h : idx < s.volume) : (linear_index_to_volume idx s).below s := by
  obtain ⟨sx, sy, sz⟩ := s
  replace h : idx < sx * sy * sz := h
  have hvol : 0 < sx * sy * sz := Nat.lt_of_le_of_lt (Nat.zero_le idx) h
  have hz : 0 < sz := by
    rcases Nat.eq_zero_or_pos sz with h0 | h0
    · subst h0; simp at hvol
    · exact h0
  have hy : 0 < sy := by
    rcases Nat.eq_zero_or_pos sy with h0 | h0
    · subst h0; simp at hvol
    · exact h0
  refine ⟨?_, ?_, ?_⟩
  · show idx / sz / sy < sx
    rw [Nat.div_lt_iff_lt_mul hy, Nat.div_lt_iff_lt_mul hz]
    calc idx < sx * sy * sz := h
      _ = sx * sy * sz := rfl
  · exact Nat.mod_lt _ hy
  · exact Nat.mod_lt _ hz

theorem linear_to_volume_to_linear (idx : Nat) (s : UVec3)
    (h : idx < s.volume) :
    volume_index_to_linear s (linear_index_to_volume idx s) = idx := by
  obtain ⟨sx, sy, sz⟩ := s
  replace h : idx < sx * sy * sz := h
  have hvol : 0 < sx * sy * sz := Nat.lt_of_le_of_lt (Nat.zero_le idx) h
  have hz : 0 < sz := by
    rcases Nat.eq_zero_or_pos sz with h0 | h0
    · subst h0; simp at hvol
    · exact h0
  have hy : 0 < sy := by
    rcases Nat.eq_zero_or_pos sy with h0 | h0
    · subst h0; simp at hvol
    · exact h0
  rw [volume_index_to_linear_eq]
  exact nat_encode_decode sy sz idx hy hz

theorem volume_to_linear_lt (s p : UVec3) (h : p.below s) :
    volume_index_to_linear s p < s.volume := by
  obtain ⟨sx, sy, sz⟩ := s
  obtain ⟨px, py, pz⟩ := p
  obtain ⟨h1, h2, h3⟩ := h
  rw [volume_index_to_linear_eq]
  exact nat_encode_lt sx sy sz px py pz h1 h2 h3

theorem volume_to_linear_to_volume (s p : UVec3) (h : p.below s) :
    linear_index_to_volume (volume_index_to_linear s p) s = p := by
  obtain ⟨sx, sy, sz⟩ := s
  obtain ⟨px, py, pz⟩ := p
  obtain ⟨h1, h2, h3⟩ := h
  replace h2 : py < sy := h2
  replace h3 : pz < sz := h3
  rw [volume_index_to_linear_eq]
  show UVec3.mk
    (((px * sy + py) * sz + pz) / sz / sy)
    (((px * sy + py) * sz + pz) / sz % sy)
    (((px * sy + py) * sz + pz) % sz) = ⟨px, py, pz⟩
  rw [nat_decode_encode_div sy sz px py pz h2 h3,
    nat_decode_encode_mod sy sz px py pz h3]
  congr 1
  · rw [Nat.mul_comm px sy, Nat.mul_add_div (by omega : 0 < sy),
     Nat.div_eq_of_lt h2]
    simp
  · rw [Nat.add_comm, Nat.add_mul_mod_self_right, Nat.mod_eq_of_lt h2]

/-- C8: `linear_index_to_volume` maps every linear index below the volume to a
3-D index componentwise below `sizes`, and the row-major `get_index`
(`volume_index_to_linear`) maps it back; conversely, every 3-D index
componentwise below `sizes` round-trips through the linear index.  The two
maps are mutual inverses (x-major, z fastest). -/
theorem C8_linear_volume_inverse (sizes : UVec3) :
    (∀ idx : Nat, idx < sizes.volume →
      (linear_index_to_volume idx sizes).below sizes ∧
      volume_index_to_linear sizes (linear_index_to_volume idx sizes) = idx) ∧
    (∀ p : UVec3, p.below sizes →
      volume_index_to_linear sizes p < sizes.volume ∧
      linear_index_to_volume (volume_index_to_linear sizes p) sizes = p) := by
  constructor
  · intro idx h
    exact ⟨linear_index_to_volume_below idx sizes h,
      linear_to_volume_to_linear idx sizes h⟩
  · intro p h
    exact ⟨volume_to_linear_lt sizes p h, volume_to_linear_to_volume sizes p h⟩

/-! ## Borrow tracker: `ChunkBorrowInfo` (`array.rs` lines 5–58)

The per-slot atomic counter is embedded as a plain `Nat` state (usize,
values `0 ≤ s < 2^64`); each `fetch_update` with a single compare-and-swap
becomes a pure function `Nat → Bool × Nat` returning the success flag and
the new state (state unchanged on failure). -/

/-- `ChunkBorrowInfo::UNIQUE_BORROW = usize::MAX` on a 64-bit target. -/
def UNIQUE_BORROW : Nat := 2 ^ 64 - 1

theorem UNIQUE_BORROW_eq : UNIQUE_BORROW = 18446744073709551615 := by
  norm_num [UNIQUE_BORROW]

/-- `ChunkBorrowInfo::is_unique`: state equals the exclusive sentinel. -/
def is_unique (s : Nat) : Bool := s == UNIQUE_BORROW

/-- `ChunkBorrowInfo::is_free`: state is zero. -/
def is_free (s : Nat) : Bool := s == 0

/-- `ChunkBorrowInfo::is_shared`: not unique and positive. -/
def is_shared (s : Nat) : Bool := !is_unique s && decide (0 < s)

/-- `ChunkBorrowInfo::borrow` (try_acquire_shared):
`fetch_update(|value| (!self.is_unique()).then_some(value + 1))`. -/
def borrow (s : Nat) : Bool × Nat :=
  if !is_unique s then (true, s + 1) else (false, s)

/-- `ChunkBorrowInfo::borrow_mut` (try_acquire_unique):
`fetch_update(|value| (value == 0).then_some(Self::UNIQUE_BORROW))`. -/
def borrow_mut (s : Nat) : Bool × Nat :=
  if s == 0 then (true, UNIQUE_BORROW) else (false, s)

/-- `ChunkBorrowInfo::free` (release_shared):
`fetch_update(|value| self.is_shared().then_some(value - 1))`. -/
def free (s : Nat) : Bool × Nat :=
  if is_shared s then (true, s - 1) else (false, s)

/-- `ChunkBorrowInfo::free_mut` (release_unique):
`fetch_update(|_| self.is_unique().then_some(0))`. -/
def free_mut (s : Nat) : Bool × Nat :=
  if is_unique s then (true, 0) else (false, s)

theorem borrow_eq (s : Nat) :
    borrow s = if s = UNIQUE_BORROW then (false, s) else (true, s + 1) := by
  by_cases h : s = UNIQUE_BORROW <;> simp [borrow, is_unique, h]

theorem borrow_mut_eq (s : Nat) :
    borrow_mut s = if s = 0 then (true, UNIQUE_BORROW) else (false, s) := by
  by_cases h : s = 0 <;> simp [borrow_mut, h]

theorem free_eq (s : Nat) :
    free s =
      if s ≠ UNIQUE_BORROW ∧ 0 < s then (true, s - 1) else (false, s) := by
  by_cases h : s = UNIQUE_BORROW <;> by_cases h0 : 0 < s <;>
    simp [free, is_shared, is_unique, h, h0] <;> omega

theorem free_mut_eq (s : Nat) :
    free_mut s = if s = UNIQUE_BORROW then (true, 0) else (false, s) := by
  by_cases h : s = UNIQUE_BORROW <;> simp [free_mut, is_unique, h]

/-- C2: for every borrow-state value, `borrow` succeeds iff the state is not
the exclusive sentinel and then increments; `borrow_mut` succeeds iff the
state is exactly 0 and then sets the sentinel; `free` succeeds iff the state
is positive non-sentinel and then decrements; `free_mut` succeeds iff the
state is the sentinel and then resets to 0; each returns its success as a
boolean and leaves the state unchanged on failure. -/
theorem C2_borrow_ops (s : Nat) (h : s < 2 ^ 64) :
    ((borrow s).1 = true ↔ s ≠ UNIQUE_BORROW) ∧
    ((borrow s).1 = true → (borrow s).2 = s + 1) ∧
    ((borrow_mut s).1 = true ↔ s = 0) ∧
    ((borrow_mut s).1 = true → (borrow_mut s).2 = UNIQUE_BORROW) ∧
    ((free s).1 = true ↔ (0 < s ∧ s ≠ UNIQUE_BORROW)) ∧
    ((free s).1 = true → (free s).2 = s - 1) ∧
    ((free_mut s).1 = true ↔ s = UNIQUE_BORROW) ∧
    ((free_mut s).1 = true → (free_mut s).2 = 0) ∧
    ((borrow s).1 = false → (borrow s).2 = s) ∧
    ((borrow_mut s).1 = false → (borrow_mut s).2 = s) ∧
    ((free s).1 = false → (free s).2 = s) ∧
    ((free_mut s).1 = false → (free_mut s).2 = s) := by
  simp only [borrow_eq, borrow_mut_eq, free_eq, free_mut_eq, UNIQUE_BORROW_eq]
  by_cases hu : s = 18446744073709551615 <;> by_cases h0 : s = 0 <;>
    simp [hu, h0, Nat.pos_iff_ne_zero]

theorem C2_borrow_ops_witness :
    (5 : Nat) < 2 ^ 64 ∧ ((borrow 5).1 = true ↔ (5 : Nat) ≠ UNIQUE_BORROW) :=
  ⟨by decide, (C2_borrow_ops 5 (by decide)).1⟩

/-! ## Operation sequences on one slot (claim C3) -/

/-- One of the four borrow-tracker operations. -/
inductive BorrowOp
  | acquireShared
  | acquireUnique
  | releaseShared
  | releaseUnique
deriving DecidableEq, Repr

/-- State after applying one operation (failed operations leave the state
unchanged, exactly as `fetch_update` does). -/
def applyOp (s : Nat) : BorrowOp → Nat
  | .acquireShared => (borrow s).2
  | .acquireUnique => (borrow_mut s).2
  | .releaseShared => (free s).2
  | .releaseUnique => (free_mut s).2

/-- State after running a sequence of operations. -/
def runOps (ops : List BorrowOp) (s : Nat) : Nat := ops.foldl applyOp s

theorem runOps_nil (s : Nat) : runOps [] s = s := rfl

theorem runOps_cons (a : BorrowOp) (l : List BorrowOp) (s : Nat) :
    runOps (a :: l) s = runOps l (applyOp s a) := rfl

theorem applyOp_acquireShared (s : Nat) :
    applyOp s .acquireShared = if s = UNIQUE_BORROW then s else s + 1 := by
  simp only [applyOp, borrow_eq]; split <;> rfl

theorem applyOp_acquireUnique (s : Nat) :
    applyOp s .acquireUnique = if s = 0 then UNIQUE_BORROW else s := by
  simp only [applyOp, borrow_mut_eq]; split <;> rfl

theorem applyOp_releaseShared (s : Nat) :
    applyOp s .releaseShared =
      if s ≠ UNIQUE_BORROW ∧ 0 < s then s - 1 else s := by
  simp only [applyOp, free_eq]; split <;> rfl

theorem applyOp_releaseUnique (s : Nat) :
    applyOp s .releaseUnique = if s = UNIQUE_BORROW then 0 else s := by
  simp only [applyOp, free_mut_eq]; split <;> rfl

theorem runOps_replicate_shared (n s : Nat) (h : s + n ≤ UNIQUE_BORROW) :
    runOps (List.replicate n .acquireShared) s = s + n := by
  induction n generalizing s with
  | zero => simp [runOps]
  | succ n ih =>
    rw [List.replicate_succ, runOps_cons, applyOp_acquireShared]
    have hs : s ≠ UNIQUE_BORROW := by omega
    rw [if_neg hs, ih (s + 1) (by omega)]
    omega

/-- C3 counterexample: the claim fails on the code.  Starting from state 0,
the sequence of `usize::MAX - 1` successful shared acquisitions reaches state
`usize::MAX - 1`; from there one more shared acquisition *succeeds* (the
state is not the sentinel) and produces exactly the exclusive sentinel
`usize::MAX`, so a successful shared acquisition can produce the exclusive
sentinel. -/
theorem C3_counterexample :
    runOps (List.replicate (2 ^ 64 - 2) .acquireShared) 0 = UNIQUE_BORROW - 1 ∧
    (borrow (UNIQUE_BORROW - 1)).1 = true ∧
    (borrow (UNIQUE_BORROW - 1)).2 = UNIQUE_BORROW := by
  refine ⟨?_, ?_, ?_⟩
  · rw [runOps_replicate_shared (2 ^ 64 - 2) 0
      (by rw [UNIQUE_BORROW_eq]; norm_num)]
    rw [UNIQUE_BORROW_eq]
    norm_num
  · simp [borrow, is_unique, UNIQUE_BORROW_eq]
  · simp [borrow, is_unique, UNIQUE_BORROW_eq]

theorem runOps_bound (l : List BorrowOp) (s m : Nat)
    (h : s = UNIQUE_BORROW ∨ s ≤ m) :
    runOps l s = UNIQUE_BORROW ∨ runOps l s ≤ m + l.length := by
  induction l generalizing s m with
  | nil => simpa [runOps] using h
  | cons a l ih =>
    rw [runOps_cons]
    have hstep : applyOp s a = UNIQUE_BORROW ∨ applyOp s a ≤ m + 1 := by
      cases a
      case acquireShared =>
        rw [applyOp_acquireShared]; split <;> rcases h with h | h <;> omega
      case acquireUnique =>
        rw [applyOp_acquireUnique]; split <;> rcases h with h | h <;> omega
      case releaseShared =>
        rw [applyOp_releaseShared]; split <;> rcases h with h | h <;> omega
      case releaseUnique =>
        rw [applyOp_releaseUnique]; split <;> rcases h with h | h <;> omega
    have := ih (applyOp s a) (m + 1) hstep
    simpa [Nat.add_assoc, Nat.add_comm 1 l.length] using this

/-- C3 amended: along every sequence of *fewer than `usize::MAX - 1`*
operations starting from the free state (so that the shared count can never
climb to the sentinel), every intermediate state is free, shared below the
sentinel, or the sentinel; a successful shared acquisition never produces
the exclusive sentinel; and a successful unique acquisition only arises from
state 0 (the latter for every sequence). -/
theorem C3_amended (ops : List BorrowOp) (h : ops.length < 2 ^ 64 - 2) :
    ∀ k, k ≤ ops.length →
      ((runOps (ops.take k) 0 = 0 ∨
        (1 ≤ runOps (ops.take k) 0 ∧ runOps (ops.take k) 0 < UNIQUE_BORROW) ∨
        runOps (ops.take k) 0 = UNIQUE_BORROW) ∧
      ((borrow (runOps (ops.take k) 0)).1 = true →
        (borrow (runOps (ops.take k) 0)).2 ≠ UNIQUE_BORROW) ∧
      ((borrow_mut (runOps (ops.take k) 0)).1 = true →
        runOps (ops.take k) 0 = 0)) := by
  intro k hk
  have hb := runOps_bound (ops.take k) 0 0 (Or.inr (Nat.le_refl 0))
  have hlen : (ops.take k).length ≤ ops.length := by
    simp [List.length_take]
  have hU : UNIQUE_BORROW = 18446744073709551615 := UNIQUE_BORROW_eq
  have h2 : (2 : Nat) ^ 64 - 2 = 18446744073709551614 := by norm_num
  set s := runOps (ops.take k) 0 with hs
  have hbound : s = UNIQUE_BORROW ∨ s < UNIQUE_BORROW - 1 := by
    rcases hb with hb | hb
    · exact Or.inl hb
    · right; omega
  refine ⟨?_, ?_, ?_⟩
  · rcases hbound with hb | hb
    · exact Or.inr (Or.inr hb)
    · rcases Nat.eq_zero_or_pos s with h0 | h0
      · exact Or.inl h0
      · exact Or.inr (Or.inl ⟨h0, by omega⟩)
  · intro hsucc
    rw [borrow_eq] at hsucc ⊢
    rcases hbound with hb | hb
    · rw [if_pos hb] at hsucc
      exact absurd hsucc (by simp)
    · have hne : s ≠ UNIQUE_BORROW := by omega
      rw [if_neg hne]
      simp only []
      simp
      omega
  · intro hsucc
    rw [borrow_mut_eq] at hsucc
    by_cases h0 : s = 0
    · exact h0
    · rw [if_neg h0] at hsucc
      simp at hsucc

theorem C3_amended_witness :
    ([BorrowOp.acquireShared, .acquireUnique, .releaseShared]).length
      < 2 ^ 64 - 2 ∧
    (runOps (([BorrowOp.acquireShared, .acquireUnique,
        .releaseShared]).take 2) 0 = 0 ∨
      (1 ≤ runOps (([BorrowOp.acquireShared, .acquireUnique,
          .releaseShared]).take 2) 0 ∧
        runOps (([BorrowOp.acquireShared, .acquireUnique,
          .releaseShared]).take 2) 0 < UNIQUE_BORROW) ∨
      runOps (([BorrowOp.acquireShared, .acquireUnique,
        .releaseShared]).take 2) 0 = UNIQUE_BORROW) := by
  refine ⟨by decide, ?_⟩
  exact (C3_amended [BorrowOp.acquireShared, .acquireUnique, .releaseShared]
    (by decide) 2 (by decide)).1

/-! ## `impl Clone for ChunkRef` (claim C4, `array.rs` lines 268–277) -/

/-- Embedding of `impl Clone for ChunkRef`: the clone calls
`array.borrow_map[self.index].borrow()` — and *discards* its boolean
result — then unconditionally constructs `Self::new(self.parent,
self.index)`.  The first component is the slot's borrow state after the
call; the second records that a handle was returned (always `true`). -/
def chunkRefClone (s : Nat) : Nat × Bool :=
  ((borrow s).2, true)

/-- Modelled from the spec (refinement target for C4): a clone that fails
loudly would return no handle when `try_acquire_shared` fails. -/
def chunkRefCloneSpec (s : Nat) : Option Nat :=
  if (borrow s).1 then some (borrow s).2 else none

/-- C4 counterexample: on a slot whose state is the exclusive sentinel, the
acquisition performed by `Clone for ChunkRef` fails, yet the clone still
returns a handle and the slot state is unchanged — there is no assert/abort
(the boolean result of `borrow()` is discarded), contradicting the claim
that the clone fails loudly rather than silently returning a handle. -/
theorem C4_counterexample :
    (borrow UNIQUE_BORROW).1 = false ∧
    (chunkRefClone UNIQUE_BORROW).2 = true ∧
    (chunkRefClone UNIQUE_BORROW).1 = UNIQUE_BORROW ∧
    chunkRefCloneSpec UNIQUE_BORROW = none := by
  refine ⟨?_, rfl, ?_, ?_⟩ <;>
    simp [borrow, chunkRefClone, chunkRefCloneSpec, is_unique]

/-- C4 amended: cloning a shared handle performs a new `try_acquire_shared`
on the same slot, and a successful acquisition increments the slot's shared
count by one; but the clone ignores the result of the acquisition and
returns a handle unconditionally — even when the acquisition fails because
the slot is exclusively borrowed, the state is left unchanged and a handle
is still (silently) produced. -/
theorem C4_clone_amended (s : Nat) (h : s < 2 ^ 64) :
    (chunkRefClone s).1 = (borrow s).2 ∧
    ((borrow s).1 = true → (chunkRefClone s).1 = s + 1) ∧
    ((borrow s).1 = false → (chunkRefClone s).1 = s) ∧
    (chunkRefClone s).2 = true := by
  refine ⟨rfl, ?_, ?_, rfl⟩ <;> intro hb <;>
    simp only [chunkRefClone] <;>
    by_cases hu : s = UNIQUE_BORROW <;> simp [borrow, is_unique, hu] at hb ⊢

theorem C4_clone_amended_witness :
    (3 : Nat) < 2 ^ 64 ∧ (chunkRefClone 3).1 = (borrow 3).2 :=
  ⟨by decide, (C4_clone_amended 3 (by decide)).1⟩

/-! ## Chunk arena position indexing and acquisition (`array.rs`) -/

/-- `ChunkArray::local_pos_to_volume_index(sizes, pos)`:
`shifted = pos + Int3::from(sizes) / 2`, in-bounds check against `sizes`
(Rust `i32 /` truncates toward zero; the operands here are non-negative, so
`Int` division coincides). -/
def local_pos_to_volume_index (sizes : UVec3) (pos : IVec3) : Option UVec3 :=
  let sx : Int := sizes.x
  let sy : Int := sizes.y
  let sz : Int := sizes.z
  let shifted : IVec3 := pos + ⟨sx / 2, sy / 2, sz / 2⟩
  if 0 ≤ shifted.x ∧ shifted.x < sx ∧ 0 ≤ shifted.y ∧ shifted.y < sy ∧
      0 ≤ shifted.z ∧ shifted.z < sz then
    some ⟨shifted.x.toNat, shifted.y.toNat, shifted.z.toNat⟩
  else
    none

/-- `ChunkArray::chunk_pos_to_linear_index(sizes, pos)`. -/
def chunk_pos_to_linear_index (sizes : UVec3) (pos : IVec3) : Option Nat :=
  (local_pos_to_volume_index sizes pos).map (volume_index_to_linear sizes)

/-- The arena allocation `ChunkArrayBox`: `sizes`, `owned` flag and the
per-slot borrow states (`borrow_map`).  The `chunks` payload itself carries
no information relevant to acquisition, so it is represented by its slot
count alone. -/
structure ChunkArrayBox where
  sizes : UVec3
  owned : Bool
  borrow_map : List Nat
deriving DecidableEq, Repr

/-- `ChunkArray::new()`: zero sizes, `owned = true`, empty borrow map and
chunk vector. -/
def ChunkArray.new : ChunkArrayBox := ⟨⟨0, 0, 0⟩, true, []⟩

/-- `impl Default for ChunkArray` delegates to `ChunkArray::new`. -/
def ChunkArray.defaultBox : ChunkArrayBox := ChunkArray.new

/-- `ChunkArrayBox::chunk(pos)`: resolve the position to a linear index
(`None` if out of bounds), try `borrow()` on that slot, and return a shared
handle (modelled by the slot index) plus the updated borrow map on success.
Indexing `borrow_map[index]` is in bounds in well-formed arenas; the model
reads a missing slot as state 0. -/
def ChunkArrayBox.chunk (box : ChunkArrayBox) (pos : IVec3) :
    Option (Nat × ChunkArrayBox) := do
  let index ← chunk_pos_to_linear_index box.sizes pos
  let st := box.borrow_map.getD index 0
  if (borrow st).1 then
    some (index, { box with borrow_map := box.borrow_map.set index (borrow st).2 })
  else
    none

/-- `ChunkArrayBox::chunk_mut(pos)`: as `chunk`, via `borrow_mut()`. -/
def ChunkArrayBox.chunk_mut (box : ChunkArrayBox) (pos : IVec3) :
    Option (Nat × ChunkArrayBox) := do
  let index ← chunk_pos_to_linear_index box.sizes pos
  let st := box.borrow_map.getD index 0
  if (borrow_mut st).1 then
    some (index, { box with borrow_map := box.borrow_map.set index (borrow_mut st).2 })
  else
    none

/-- C10: the arena produced by `ChunkArray::new()` (and `Default`) has
all-zero sizes, and on it every acquisition fails: for every position,
both `chunk(pos)` and `chunk_mut(pos)` return `None`, so no handle can ever
be obtained from a zero-sized arena. -/
theorem C10_zero_arena (pos : IVec3) :
    ChunkArray.defaultBox = ChunkArray.new ∧
    ChunkArray.new.sizes = ⟨0, 0, 0⟩ ∧
    ChunkArray.new.chunk pos = none ∧
    ChunkArray.new.chunk_mut pos = none := by
  have hidx : chunk_pos_to_linear_index ChunkArray.new.sizes pos = none := by
    simp only [chunk_pos_to_linear_index, local_pos_to_volume_index,
      ChunkArray.new]
    rw [if_neg]
    · rfl
    · obtain ⟨px, py, pz⟩ := pos
      simp only [IVec3.add, HAdd.hAdd]
      intro hcon
      simp only [Nat.cast_zero] at hcon
      omega
  refine ⟨rfl, rfl, ?_, ?_⟩ <;>
    simp [ChunkArrayBox.chunk, ChunkArrayBox.chunk_mut, hidx]

/-! ## Arena lifecycle (claim C1)

The lifecycle of one `ChunkArrayBox` allocation is modelled as a transition
system.  A state records whether the owning `ChunkArray` wrapper is still
alive, the box's `owned` flag, the borrow state of every slot and how many
times `ChunkArrayBox::deallocate` has run.  Events are the operations the
program can perform on the allocation: dropping the owner
(`impl Drop for ChunkArray` → `unown`), acquiring a handle
(`ChunkArrayBox::chunk`/`chunk_mut`, or `Clone for ChunkRef`), and dropping
a handle (`impl Drop for ChunkRef`/`ChunkMut`, which releases the slot and
then calls `try_deallocate`).  Acquisition requires a live reference to the
box, which the program can only hold through the owner wrapper or an
existing handle. -/

structure ArenaState where
  ownerAlive : Bool
  owned : Bool
  slots : List Nat
  deallocated : Nat
deriving DecidableEq, Repr

/-- All slots report borrow state 0
(`self.borrow_map.iter().all(ChunkBorrowInfo::is_free)`). -/
def allFree (slots : List Nat) : Bool := slots.all (· == 0)

/-- `ChunkArrayBox::try_deallocate`: if `owned` do nothing; otherwise, if
every slot is free, run `deallocate` (counted, to observe double frees). -/
def tryDeallocate (s : ArenaState) : ArenaState :=
  if s.owned then s
  else if allFree s.slots then { s with deallocated := s.deallocated + 1 }
  else s

inductive ArenaEvent
  | dropOwner
  | acquireShared (i : Nat)
  | acquireUnique (i : Nat)
  | dropShared (i : Nat)
  | dropUnique (i : Nat)
deriving DecidableEq, Repr

/-- A caller can reach the box only through the owner wrapper or a live
handle (a slot with non-zero borrow state). -/
def hasAccessor (s : ArenaState) : Bool := s.ownerAlive || !allFree s.slots

/-- One lifecycle event.  `none` means the event is not possible in this
state (no owner to drop, no reference through which to acquire, or no
handle of that kind on that slot to drop). -/
def arenaStep (s : ArenaState) : ArenaEvent → Option ArenaState
  | .dropOwner =>
    if s.ownerAlive then
      some (tryDeallocate { s with ownerAlive := false, owned := false })
    else none
  | .acquireShared i =>
    if hasAccessor s ∧ i < s.slots.length then
      some { s with slots := s.slots.set i (borrow (s.slots.getD i 0)).2 }
    else none
  | .acquireUnique i =>
    if hasAccessor s ∧ i < s.slots.length then
      some { s with slots := s.slots.set i (borrow_mut (s.slots.getD i 0)).2 }
    else none
  | .dropShared i =>
    if (free (s.slots.getD i 0)).1 then
      some (tryDeallocate
        { s with slots := s.slots.set i (free (s.slots.getD i 0)).2 })
    else none
  | .dropUnique i =>
    if (free_mut (s.slots.getD i 0)).1 then
      some (tryDeallocate
        { s with slots := s.slots.set i (free_mut (s.slots.getD i 0)).2 })
    else none

/-- `ChunkArray::new_empty(sizes)` yields an owned arena with a live owner,
`sizes.volume()` zeroed borrow states, and of course no deallocation yet. -/
def ArenaState.init (n : Nat) : ArenaState :=
  ⟨true, true, List.replicate n 0, 0⟩

/-- States the program can bring the allocation into. -/
inductive ArenaReachable : ArenaState → Prop
  | init (n : Nat) : ArenaReachable (ArenaState.init n)
  | step {s : ArenaState} {e : ArenaEvent} {t : ArenaState} :
      ArenaReachable s → arenaStep s e = some t → ArenaReachable t

/-- The inductive invariant of the lifecycle. -/
def ArenaInv (s : ArenaState) : Prop :=
  s.owned = s.ownerAlive ∧ s.deallocated ≤ 1 ∧
  (s.deallocated = 1 ↔ (s.owned = false ∧ allFree s.slots = true))

theorem allFree_true_iff (l : List Nat) :
    allFree l = true ↔ ∀ (j : Nat) (hj : j < l.length), l[j] = 0 := by
  simp only [allFree, List.all_eq_true, beq_iff_eq]
  constructor
  · intro h j hj
    exact h _ (List.getElem_mem hj)
  · intro h x hx
    obtain ⟨j, hj, rfl⟩ := List.mem_iff_getElem.mp hx
    exact h j hj

theorem getD_eq_getElem_of_lt (l : List Nat) (i : Nat) (h : i < l.length) :
    l.getD i 0 = l[i] := by
  simp [List.getD_eq_getElem?_getD, List.getElem?_eq_getElem h]

theorem lt_length_of_getD_ne (l : List Nat) (i : Nat) (h : l.getD i 0 ≠ 0) :
    i < l.length := by
  by_contra hge
  push_neg at hge
  rw [List.getD_eq_getElem?_getD, List.getElem?_eq_none hge] at h
  simp at h

theorem allFree_false_of_slot (l : List Nat) (i : Nat)
    (h : l.getD i 0 ≠ 0) : allFree l = false := by
  have hlt := lt_length_of_getD_ne l i h
  rw [getD_eq_getElem_of_lt l i hlt] at h
  rw [Bool.eq_false_iff]
  intro htrue
  exact h ((allFree_true_iff l).mp htrue i hlt)

theorem allFree_set_false (l : List Nat) (i v : Nat)
    (hv : l.getD i 0 ≤ v) (h : allFree l = false) :
    allFree (l.set i v) = false := by
  rw [Bool.eq_false_iff] at h ⊢
  intro htrue
  apply h
  rw [allFree_true_iff] at htrue ⊢
  intro j hj
  have hj' : j < (l.set i v).length := by simpa using hj
  have hval := htrue j hj'
  rw [List.getElem_set] at hval
  by_cases hij : i = j
  · subst hij
    rw [if_pos rfl] at hval
    subst hval
    rw [getD_eq_getElem_of_lt l i hj] at hv
    omega
  · rw [if_neg hij] at hval
    exact hval

theorem borrow_snd_ge (s : Nat) : s ≤ (borrow s).2 := by
  rw [borrow_eq]; split <;> simp

theorem borrow_mut_snd_ge (s : Nat) : s ≤ (borrow_mut s).2 := by
  rw [borrow_mut_eq]; split
  · omega
  · simp

theorem tryDeallocate_owned (s : ArenaState) (h : s.owned = true) :
    tryDeallocate s = s := by
  simp [tryDeallocate, h]

theorem tryDeallocate_free (s : ArenaState) (h : s.owned = false)
    (hf : allFree s.slots = true) :
    tryDeallocate s = { s with deallocated := s.deallocated + 1 } := by
  simp [tryDeallocate, h, hf]

theorem tryDeallocate_busy (s : ArenaState) (h : s.owned = false)
    (hf : allFree s.slots = false) : tryDeallocate s = s := by
  simp [tryDeallocate, h, hf]

theorem arenaInv_step {s : ArenaState} {e : ArenaEvent} {t : ArenaState}
    (hinv : ArenaInv s) (hstep : arenaStep s e = some t) : ArenaInv t := by
  obtain ⟨h1, h2, h3⟩ := hinv
  cases e with
  | dropOwner =>
    simp only [arenaStep] at hstep
    split at hstep
    case isFalse => simp at hstep
    case isTrue halive =>
      simp only [Option.some.injEq] at hstep
      subst hstep
      have hd0 : s.deallocated = 0 := by
        rcases Nat.eq_zero_or_pos s.deallocated with h0 | h0
        · exact h0
        · have h1' := (h3.mp (by omega)).1
          rw [h1, halive] at h1'
          cases h1'
      by_cases hf : allFree s.slots = true
      · rw [tryDeallocate_free
          { s with ownerAlive := false, owned := false } rfl hf]
        refine ⟨rfl, ?_, ?_⟩
        · show s.deallocated + 1 ≤ 1; omega
        · constructor
          · intro _; exact ⟨rfl, hf⟩
          · intro _; show s.deallocated + 1 = 1; omega
      · rw [tryDeallocate_busy
          { s with ownerAlive := false, owned := false } rfl
          (Bool.eq_false_iff.mpr hf)]
        refine ⟨rfl, h2, ?_⟩
        constructor
        · intro hcon
          exact absurd (show s.deallocated = 1 from hcon) (by omega)
        · rintro ⟨-, hfr⟩
          exact absurd (show allFree s.slots = true from hfr) hf
  | acquireShared i =>
    simp only [arenaStep] at hstep
    split at hstep
    case isFalse => simp at hstep
    case isTrue hcond =>
      obtain ⟨hacc, hlen⟩ := hcond
      simp only [Option.some.injEq] at hstep
      subst hstep
      refine ⟨h1, h2, ?_⟩
      constructor
      · intro hd1
        obtain ⟨how, hfr⟩ := h3.mp (show s.deallocated = 1 from hd1)
        have hoa : s.ownerAlive = false := (h1.symm.trans how)
        simp [hasAccessor, hoa, hfr] at hacc
      · rintro ⟨how, hfr⟩
        have how' : s.owned = false := how
        have hoa : s.ownerAlive = false := (h1.symm.trans how')
        have hnf : allFree s.slots = false := by
          cases hb : allFree s.slots
          · rfl
          · simp [hasAccessor, hoa, hb] at hacc
        have hset := allFree_set_false s.slots i
          (borrow (s.slots.getD i 0)).2 (borrow_snd_ge _) hnf
        have hfr' : allFree (s.slots.set i (borrow (s.slots.getD i 0)).2)
            = true := hfr
        rw [hset] at hfr'
        cases hfr'
  | acquireUnique i =>
    simp only [arenaStep] at hstep
    split at hstep
    case isFalse => simp at hstep
    case isTrue hcond =>
      obtain ⟨hacc, hlen⟩ := hcond
      simp only [Option.some.injEq] at hstep
      subst hstep
      refine ⟨h1, h2, ?_⟩
      constructor
      · intro hd1
        obtain ⟨how, hfr⟩ := h3.mp (show s.deallocated = 1 from hd1)
        have hoa : s.ownerAlive = false := (h1.symm.trans how)
        simp [hasAccessor, hoa, hfr] at hacc
      · rintro ⟨how, hfr⟩
        have how' : s.owned = false := how
        have hoa : s.ownerAlive = false := (h1.symm.trans how')
        have hnf : allFree s.slots = false := by
          cases hb : allFree s.slots
          · rfl
          · simp [hasAccessor, hoa, hb] at hacc
        have hset := allFree_set_false s.slots i
          (borrow_mut (s.slots.getD i 0)).2 (borrow_mut_snd_ge _) hnf
        have hfr' : allFree (s.slots.set i (borrow_mut (s.slots.getD i 0)).2)
            = true := hfr
        rw [hset] at hfr'
        cases hfr'
  | dropShared i =>
    simp only [arenaStep] at hstep
    split at hstep
    case isFalse => simp at hstep
    case isTrue hfree =>
      simp only [Option.some.injEq] at hstep
      subst hstep
      have hst : s.slots.getD i 0 ≠ 0 := by
        rw [free_eq] at hfree
        by_cases hc : (s.slots.getD i 0 ≠ UNIQUE_BORROW ∧ 0 < s.slots.getD i 0)
        · omega
        · rw [if_neg hc] at hfree; simp at hfree
      have hnf : allFree s.slots = false := allFree_false_of_slot _ _ hst
      have hd0 : s.deallocated = 0 := by
        rcases Nat.eq_zero_or_pos s.deallocated with h0 | h0
        · exact h0
        · have hfr := (h3.mp (by omega)).2
          rw [hfr] at hnf; cases hnf
      cases how : s.owned with
      | true =>
        rw [tryDeallocate_owned
          { ownerAlive := s.ownerAlive, owned := true,
            slots := s.slots.set i (free (s.slots.getD i 0)).2,
            deallocated := s.deallocated } rfl]
        refine ⟨how.symm.trans h1, h2, ?_⟩
        constructor
        · intro hcon
          exact absurd (show s.deallocated = 1 from hcon) (by omega)
        · rintro ⟨hcon, -⟩
          exact absurd (show (true : Bool) = false from hcon) (by simp)
      | false =>
        by_cases hf2 :
            allFree (s.slots.set i (free (s.slots.getD i 0)).2) = true
        · rw [tryDeallocate_free
            { ownerAlive := s.ownerAlive, owned := false,
              slots := s.slots.set i (free (s.slots.getD i 0)).2,
              deallocated := s.deallocated } rfl hf2]
          refine ⟨how.symm.trans h1, ?_, ?_⟩
          · show s.deallocated + 1 ≤ 1; omega
          · constructor
            · intro _; exact ⟨rfl, hf2⟩
            · intro _; show s.deallocated + 1 = 1; omega
        · rw [tryDeallocate_busy
            { ownerAlive := s.ownerAlive, owned := false,
              slots := s.slots.set i (free (s.slots.getD i 0)).2,
              deallocated := s.deallocated } rfl (Bool.eq_false_iff.mpr hf2)]
          refine ⟨how.symm.trans h1, h2, ?_⟩
          constructor
          · intro hcon
            exact absurd (show s.deallocated = 1 from hcon) (by omega)
          · rintro ⟨-, hfr⟩
            exact absurd (show allFree (s.slots.set i
              (free (s.slots.getD i 0)).2) = true from hfr) hf2
  | dropUnique i =>
    simp only [arenaStep] at hstep
    split at hstep
    case isFalse => simp at hstep
    case isTrue hfree =>
      simp only [Option.some.injEq] at hstep
      subst hstep
      have hst : s.slots.getD i 0 ≠ 0 := by
        rw [free_mut_eq] at hfree
        by_cases hc : s.slots.getD i 0 = UNIQUE_BORROW
        · rw [hc, UNIQUE_BORROW_eq]; norm_num
        · rw [if_neg hc] at hfree; simp at hfree
      have hnf : allFree s.slots = false := allFree_false_of_slot _ _ hst
      have hd0 : s.deallocated = 0 := by
        rcases Nat.eq_zero_or_pos s.deallocated with h0 | h0
        · exact h0
        · have hfr := (h3.mp (by omega)).2
          rw [hfr] at hnf; cases hnf
      cases how : s.owned with
      | true =>
        rw [tryDeallocate_owned
          { ownerAlive := s.ownerAlive, owned := true,
            slots := s.slots.set i (free_mut (s.slots.getD i 0)).2,
            deallocated := s.deallocated } rfl]
        refine ⟨how.symm.trans h1, h2, ?_⟩
        constructor
        · intro hcon
          exact absurd (show s.deallocated = 1 from hcon) (by omega)
        · rintro ⟨hcon, -⟩
          exact absurd (show (true : Bool) = false from hcon) (by simp)
      | false =>
        by_cases hf2 :
            allFree (s.slots.set i (free_mut (s.slots.getD i 0)).2) = true
        · rw [tryDeallocate_free
            { ownerAlive := s.ownerAlive, owned := false,
              slots := s.slots.set i (free_mut (s.slots.getD i 0)).2,
              deallocated := s.deallocated } rfl hf2]
          refine ⟨how.symm.trans h1, ?_, ?_⟩
          · show s.deallocated + 1 ≤ 1; omega
          · constructor
            · intro _; exact ⟨rfl, hf2⟩
            · intro _; show s.deallocated + 1 = 1; omega
        · rw [tryDeallocate_busy
            { ownerAlive := s.ownerAlive, owned := false,
              slots := s.slots.set i (free_mut (s.slots.getD i 0)).2,
              deallocated := s.deallocated } rfl (Bool.eq_false_iff.mpr hf2)]
          refine ⟨how.symm.trans h1, h2, ?_⟩
          constructor
          · intro hcon
            exact absurd (show s.deallocated = 1 from hcon) (by omega)
          · rintro ⟨-, hfr⟩
            exact absurd (show allFree (s.slots.set i
              (free_mut (s.slots.getD i 0)).2) = true from hfr) hf2

theorem arenaInv_reachable {s : ArenaState} (h : ArenaReachable s) :
    ArenaInv s := by
  induction h with
  | init n =>
    refine ⟨rfl, by simp [ArenaState.init], ?_⟩
    simp only [ArenaState.init]
    constructor
    · intro hcon; exact absurd hcon (by simp)
    · rintro ⟨hcon, -⟩; exact absurd hcon (by simp)
  | step hr hstep ih => exact arenaInv_step ih hstep

/-- C1: in every reachable state of the arena lifecycle, deallocation has
run at most once (no double free); it has run exactly once precisely when
the owning wrapper has been dropped (`owned == false`) and every slot's
borrow state is 0 — in particular it never runs while any handle is alive;
dropping the owning wrapper while handles exist defers deallocation; and
the destruction of the last surviving handle (shared or unique) re-attempts
and performs it. -/
theorem C1_arena_dealloc :
    (∀ s : ArenaState, ArenaReachable s →
      s.deallocated ≤ 1 ∧
      (s.deallocated = 1 ↔ (s.owned = false ∧ allFree s.slots = true)) ∧
      (1 ≤ s.deallocated → allFree s.slots = true)) ∧
    (∀ (s t : ArenaState), ArenaReachable s → allFree s.slots = false →
      arenaStep s .dropOwner = some t → t.deallocated = s.deallocated) ∧
    (∀ (s t : ArenaState) (i : Nat), ArenaReachable s →
      s.ownerAlive = false → s.slots.getD i 0 = 1 →
      allFree (s.slots.set i 0) = true →
      arenaStep s (.dropShared i) = some t →
      t.deallocated = s.deallocated + 1 ∧ t.deallocated = 1) ∧
    (∀ (s t : ArenaState) (i : Nat), ArenaReachable s →
      s.ownerAlive = false → s.slots.getD i 0 = UNIQUE_BORROW →
      allFree (s.slots.set i 0) = true →
      arenaStep s (.dropUnique i) = some t →
      t.deallocated = s.deallocated + 1 ∧ t.deallocated = 1) := by
  refine ⟨?_, ?_, ?_, ?_⟩
  · intro s hr
    obtain ⟨h1, h2, h3⟩ := arenaInv_reachable hr
    exact ⟨h2, h3, fun hge => (h3.mp (by omega)).2⟩
  · intro s t hr hnf hstep
    simp only [arenaStep] at hstep
    split at hstep
    case isFalse => simp at hstep
    case isTrue halive =>
      simp only [Option.some.injEq] at hstep
      subst hstep
      rw [tryDeallocate_busy
        { s with ownerAlive := false, owned := false } rfl hnf]
  · intro s t i hr hoa hslot hrest hstep
    obtain ⟨h1, h2, h3⟩ := arenaInv_reachable hr
    have how : s.owned = false := h1.trans hoa
    have hd0 : s.deallocated = 0 := by
      rcases Nat.eq_zero_or_pos s.deallocated with h0 | h0
      · exact h0
      · obtain ⟨-, hfr⟩ := h3.mp (by omega)
        have := allFree_false_of_slot s.slots i (by rw [hslot]; omega)
        rw [this] at hfr; cases hfr
    have hfree1 : free (s.slots.getD i 0) = (true, 0) := by
      rw [hslot, free_eq, if_pos]
      constructor
      · rw [UNIQUE_BORROW_eq]; norm_num
      · norm_num
    simp only [arenaStep, hfree1] at hstep
    simp only [if_true, Option.some.injEq] at hstep
    subst hstep
    rw [tryDeallocate_free
      { ownerAlive := s.ownerAlive, owned := s.owned,
        slots := s.slots.set i (0 : Nat),
        deallocated := s.deallocated } how hrest]
    constructor
    · rfl
    · show s.deallocated + 1 = 1
      omega
  · intro s t i hr hoa hslot hrest hstep
    obtain ⟨h1, h2, h3⟩ := arenaInv_reachable hr
    have how : s.owned = false := h1.trans hoa
    have hd0 : s.deallocated = 0 := by
      rcases Nat.eq_zero_or_pos s.deallocated with h0 | h0
      · exact h0
      · obtain ⟨-, hfr⟩ := h3.mp (by omega)
        have := allFree_false_of_slot s.slots i
          (by rw [hslot, UNIQUE_BORROW_eq]; norm_num)
        rw [this] at hfr; cases hfr
    have hfree1 : free_mut (s.slots.getD i 0) = (true, 0) := by
      rw [hslot, free_mut_eq, if_pos rfl]
    simp only [arenaStep, hfree1] at hstep
    simp only [if_true, Option.some.injEq] at hstep
    subst hstep
    rw [tryDeallocate_free
      { ownerAlive := s.ownerAlive, owned := s.owned,
        slots := s.slots.set i (0 : Nat),
        deallocated := s.deallocated } how hrest]
    constructor
    · rfl
    · show s.deallocated + 1 = 1
      omega

theorem C1_arena_dealloc_witness :
    (ArenaState.mk false false [1] 0).deallocated ≤ 1 ∧
    (ArenaState.mk false false [1] 0).deallocated
      = (ArenaState.mk true true [1] 0).deallocated ∧
    (ArenaState.mk false false [0] 1).deallocated
      = (ArenaState.mk false false [1] 0).deallocated + 1 := by
  have hr1 : ArenaReachable (ArenaState.mk true true [1] 0) :=
    @ArenaReachable.step (ArenaState.init 1) (.acquireShared 0)
      (ArenaState.mk true true [1] 0) (ArenaReachable.init 1) (by decide)
  have hr2 : ArenaReachable (ArenaState.mk false false [1] 0) :=
    @ArenaReachable.step (ArenaState.mk true true [1] 0) .dropOwner
      (ArenaState.mk false false [1] 0) hr1 (by decide)
  refine ⟨(C1_arena_dealloc.1 _ hr2).1, ?_, ?_⟩
  · exact C1_arena_dealloc.2.1 (ArenaState.mk true true [1] 0)
      (ArenaState.mk false false [1] 0) hr1 (by decide) (by decide)
  · exact (C1_arena_dealloc.2.2.1 (ArenaState.mk false false [1] 0)
      (ArenaState.mk false false [0] 1) 0 hr2 rfl (by decide) (by decide)
      (by decide)).1

/-! ## `Range3d` (`iterator.rs` lines 218–346, claim C6)

`Range3d::new(start..end)` asserts `start ≤ end` componentwise, stores
`back_shift = start` and `sizes = (end - start).as_u64vec3()`, and its
`Iterator::next` yields `pos_from_idx(idx)` for `idx = 0, 1, …, size-1`
where `size = sizes.x * sizes.y * sizes.z`.  The full yield sequence is
embedded as a list. -/

/-- `(range.end - range.start).as_u64vec3()` (the constructor asserts the
difference is non-negative). -/
def Range3d.sizesOf (start e : IVec3) : UVec3 :=
  ⟨(e.x - start.x).toNat, (e.y - start.y).toNat, (e.z - start.z).toNat⟩

/-- `Range3d::pos_from_coord_idx(idx, back_shift)`. -/
def pos_from_coord_idx (idx : UVec3) (backShift : IVec3) : IVec3 :=
  ⟨backShift.x + idx.x, backShift.y + idx.y, backShift.z + idx.z⟩

/-- `Range3d::pos_from_idx(idx, back_shift, sizes)`. -/
def pos_from_idx (idx : Nat) (backShift : IVec3) (sizes : UVec3) : IVec3 :=
  pos_from_coord_idx (linear_index_to_volume idx sizes) backShift

/-- The sequence yielded by `Range3d::new(start..end)`, in order. -/
def range3dList (start e : IVec3) : List IVec3 :=
  (List.range (Range3d.sizesOf start e).volume).map
    (fun i => pos_from_idx i start (Range3d.sizesOf start e))

/-- Enumeration of the integers of `[a, b)` in increasing order. -/
def intRange (a b : Int) : List Int :=
  (List.range (b - a).toNat).map (fun i : Nat => a + (i : Int))

/-- The naive triple-nested loop over `[start, end)`: x outermost, then y,
then z fastest. -/
def naiveTriple (start e : IVec3) : List IVec3 :=
  (intRange start.x e.x).flatMap (fun x =>
    (intRange start.y e.y).flatMap (fun y =>
      (intRange start.z e.z).map (fun z => IVec3.mk x y z)))

theorem flatMap_congr_mem {α β : Type} {l : List α} {f g : α → List β}
    (h : ∀ a ∈ l, f a = g a) : l.flatMap f = l.flatMap g := by
  induction l with
  | nil => rfl
  | cons a l ih =>
    simp only [List.flatMap_cons]
    rw [h a (by simp), ih (fun x hx => h x (by simp [hx]))]

theorem range_mul_flatMap (n m : Nat) :
    List.range (n * m) =
      (List.range n).flatMap (fun i => (List.range m).map (fun j => m * i + j)) := by
  induction n with
  | zero => simp
  | succ n ih =>
    rw [Nat.succ_mul, List.range_add, ih, List.range_succ,
      List.flatMap_append]
    congr 1
    rw [List.flatMap_cons, List.flatMap_nil, List.append_nil]
    apply List.map_congr_left
    intro j hj
    ring

theorem UVec3.ext_nat3 {u v : UVec3} (hx : u.x = v.x) (hy : u.y = v.y)
    (hz : u.z = v.z) : u = v := by
  cases u
  cases v
  rw [UVec3.mk.injEq]
  exact ⟨hx, hy, hz⟩

theorem naiveTriple_eq_ranges (ax ay az bx by' bz : Int) :
    naiveTriple ⟨ax, ay, az⟩ ⟨bx, by', bz⟩ =
      (List.range (bx - ax).toNat).flatMap (fun a : Nat =>
        (List.range (by' - ay).toNat).flatMap (fun b : Nat =>
          (List.range (bz - az).toNat).map (fun c : Nat =>
            IVec3.mk (ax + a) (ay + b) (az + c)))) := by
  simp only [naiveTriple, intRange, List.flatMap_map, List.map_map]
  rfl

theorem range3dList_eq_ranges (ax ay az bx by' bz : Int) :
    range3dList ⟨ax, ay, az⟩ ⟨bx, by', bz⟩ =
      (List.range
          ((bx - ax).toNat * ((by' - ay).toNat * (bz - az).toNat))).map
        (fun i => pos_from_idx i ⟨ax, ay, az⟩
          ⟨(bx - ax).toNat, (by' - ay).toNat, (bz - az).toNat⟩) := by
  simp only [range3dList, Range3d.sizesOf, UVec3.volume, Nat.mul_assoc]

theorem range3dList_eq_naive (start e : IVec3)
    (h1 : start.x ≤ e.x) (h2 : start.y ≤ e.y) (h3 : start.z ≤ e.z) :
    range3dList start e = naiveTriple start e := by
  obtain ⟨ax, ay, az⟩ := start
  obtain ⟨bx, by', bz⟩ := e
  rw [naiveTriple_eq_ranges, range3dList_eq_ranges]
  rw [range_mul_flatMap, List.map_flatMap]
  apply flatMap_congr_mem
  intro a ha
  rw [List.mem_range] at ha
  rw [List.map_map, range_mul_flatMap, List.map_flatMap]
  apply flatMap_congr_mem
  intro b hb
  rw [List.mem_range] at hb
  rw [List.map_map]
  apply List.map_congr_left
  intro c hc
  rw [List.mem_range] at hc
  simp only [Function.comp_apply, Function.comp]
  have hidx : (by' - ay).toNat * (bz - az).toNat * a
        + ((bz - az).toNat * b + c)
      = (a * (by' - ay).toNat + b) * (bz - az).toNat + c := by ring
  rw [hidx]
  simp only [pos_from_idx, pos_from_coord_idx, linear_index_to_volume]
  rw [nat_decode_encode_div _ _ _ _ _ hb hc,
    nat_decode_encode_mod _ _ _ _ _ hc]
  have hxc : (a * (by' - ay).toNat + b) / (by' - ay).toNat = a := by
    rw [Nat.mul_comm a ((by' - ay).toNat),
      Nat.mul_add_div (by omega : 0 < (by' - ay).toNat),
      Nat.div_eq_of_lt hb]
    simp
  have hyc : (a * (by' - ay).toNat + b) % (by' - ay).toNat = b := by
    rw [Nat.add_comm, Nat.add_mul_mod_self_right, Nat.mod_eq_of_lt hb]
  rw [hxc, hyc]

theorem range3dList_nodup (start e : IVec3) :
    (range3dList start e).Nodup := by
  rw [range3dList]
  apply List.Nodup.map_on _ (List.nodup_range _)
  intro i hi j hj hf
  rw [List.mem_range] at hi hj
  simp only [pos_from_idx, pos_from_coord_idx, IVec3.mk.injEq] at hf
  obtain ⟨hfx, hfy, hfz⟩ := hf
  have hvol : linear_index_to_volume i (Range3d.sizesOf start e)
      = linear_index_to_volume j (Range3d.sizesOf start e) :=
    UVec3.ext_nat3 (by omega) (by omega) (by omega)
  calc i = volume_index_to_linear (Range3d.sizesOf start e)
        (linear_index_to_volume i (Range3d.sizesOf start e)) :=
        (linear_to_volume_to_linear i _ hi).symm
    _ = volume_index_to_linear (Range3d.sizesOf start e)
        (linear_index_to_volume j (Range3d.sizesOf start e)) := by rw [hvol]
    _ = j := linear_to_volume_to_linear j _ hj

/-- C6: for every `start ≤ end` componentwise, `Range3d(start..end)` yields
exactly the sequence of the naive triple-nested loop (x outermost, z
fastest) over `[start, end)`: same order, exactly box-volume many elements,
no duplicates, and the empty sequence when any axis has `start == end`. -/
theorem C6_range3d (start e : IVec3)
    (h : start.x ≤ e.x ∧ start.y ≤ e.y ∧ start.z ≤ e.z) :
    range3dList start e = naiveTriple start e ∧
    (range3dList start e).length = (Range3d.sizesOf start e).volume ∧
    (range3dList start e).Nodup ∧
    ((start.x = e.x ∨ start.y = e.y ∨ start.z = e.z) →
      range3dList start e = []) := by
  obtain ⟨h1, h2, h3⟩ := h
  refine ⟨range3dList_eq_naive start e h1 h2 h3, ?_, range3dList_nodup start e, ?_⟩
  · simp [range3dList]
  · intro hax
    have hvol : (Range3d.sizesOf start e).volume = 0 := by
      rcases hax with h0 | h0 | h0 <;>
        simp [Range3d.sizesOf, UVec3.volume, h0]
    rw [range3dList, hvol]
    rfl

theorem C6_range3d_witness :
    ((IVec3.mk 0 0 0).x ≤ (IVec3.mk 1 2 2).x ∧
      (IVec3.mk 0 0 0).y ≤ (IVec3.mk 1 2 2).y ∧
      (IVec3.mk 0 0 0).z ≤ (IVec3.mk 1 2 2).z) ∧
    range3dList ⟨0, 0, 0⟩ ⟨1, 2, 2⟩ = naiveTriple ⟨0, 0, 0⟩ ⟨1, 2, 2⟩ :=
  ⟨by decide, (C6_range3d ⟨0, 0, 0⟩ ⟨1, 2, 2⟩ (by decide)).1⟩

/-! ## `CubeBoundary` (`iterator.rs` lines 37–189, claim C7)

The iterator's state is the previously yielded position (`prev`), initially
`splat(-1)`.  `next` is embedded as `boundaryNext`, a function from the
previous position to a step outcome: `done` (the Rust `None`), `yield p`
(`Some(p)`, also updating `prev := p`), or `fail` (an `unreachable!` arm).
The full yield sequence is generated with sufficient fuel. -/

inductive BStep where
  | done
  | yield (p : IVec3)
  | fail
deriving DecidableEq, Repr

/-- `impl Iterator for CubeBoundary`, `fn next`. -/
def boundaryNext (size : Int) (prev : IVec3) : BStep :=
  let max : Int := size - 1
  let mm1 : Int := max - 1
  if prev = IVec3.splat max then .done
  else if prev = IVec3.splat (-1) then .yield ⟨0, 0, 0⟩
  else
    let x := prev.x
    let y := prev.y
    let z := prev.z
    if 1 ≤ x ∧ x ≤ mm1 then
      if 1 ≤ y ∧ y ≤ mm1 then
        if z = 0 then .yield ⟨x, y, max⟩
        else if z = max then .yield ⟨x, y + 1, 0⟩
        else .fail
      else if y = 0 then
        if 0 ≤ z ∧ z ≤ mm1 then .yield ⟨x, y, z + 1⟩
        else if z = max then .yield ⟨x, y + 1, 0⟩
        else .fail
      else if y = max then
        if 0 ≤ z ∧ z ≤ mm1 then .yield ⟨x, y, z + 1⟩
        else if z = max then .yield ⟨x + 1, 0, 0⟩
        else .fail
      else .fail
    else if x = 0 then
      if 0 ≤ y ∧ y ≤ mm1 then
        if 0 ≤ z ∧ z ≤ mm1 then .yield ⟨x, y, z + 1⟩
        else if z = max then .yield ⟨x, y + 1, 0⟩
        else .fail
      else if y = max then
        if 0 ≤ z ∧ z ≤ mm1 then .yield ⟨x, y, z + 1⟩
        else if z = max then .yield ⟨x + 1, 0, 0⟩
        else .fail
      else .fail
    else if x = max then
      if 0 ≤ y ∧ y ≤ mm1 then
        if 0 ≤ z ∧ z ≤ mm1 then .yield ⟨x, y, z + 1⟩
        else if z = max then .yield ⟨x, y + 1, 0⟩
        else .fail
      else if y = max then
        if 0 ≤ z ∧ z ≤ mm1 then .yield ⟨x, y, z + 1⟩
        else if z = max then .yield ⟨max, max, max⟩
        else .fail
      else .fail
    else .fail

/-- The sequence of positions `CubeBoundary::new(size)` yields, generated
with fuel (one step per yielded element; `size³ + 1` is enough). -/
def genBoundary (size : Int) : Nat → IVec3 → List IVec3
  | 0, _ => []
  | fuel + 1, prev =>
    match boundaryNext size prev with
    | .yield p => p :: genBoundary size fuel p
    | _ => []

def cubeBoundaryList (size : Int) : List IVec3 :=
  genBoundary size (size.toNat * size.toNat * size.toNat + 1)
    (IVec3.splat (-1))

/-- A position of the `size³` cube lies on its surface shell: at least one
coordinate is `0` or `size - 1` (the predicate of the documented
reference filter). -/
def onShell (size : Int) (p : IVec3) : Bool :=
  p.x == 0 || p.x == size - 1 || p.y == 0 || p.y == size - 1 ||
    p.z == 0 || p.z == size - 1

/-- Decoded position of linear index `i` in the `n³` cube based at the
origin (the `Range3d(0..size)` enumeration order). -/
def posOf (n : Nat) (i : Nat) : IVec3 :=
  pos_from_idx i ⟨0, 0, 0⟩ ⟨n, n, n⟩

theorem posOf_encode (n x y z : Nat) (hx : x < n) (hy : y < n) (hz : z < n) :
    posOf n ((x * n + y) * n + z) = ⟨(x : Int), (y : Int), (z : Int)⟩ := by
  have hv : volume_index_to_linear ⟨n, n, n⟩ ⟨x, y, z⟩ = (x * n + y) * n + z :=
    volume_index_to_linear_eq ⟨n, n, n⟩ ⟨x, y, z⟩
  have hd : linear_index_to_volume ((x * n + y) * n + z) ⟨n, n, n⟩
      = UVec3.mk x y z := by
    rw [← hv]
    exact volume_to_linear_to_volume ⟨n, n, n⟩ ⟨x, y, z⟩ ⟨hx, hy, hz⟩
  simp [posOf, pos_from_idx, pos_from_coord_idx, hd]

theorem bnext_done (size : Int) :
    boundaryNext size (IVec3.splat (size - 1)) = .done := by
  simp [boundaryNext]

theorem bnext_initial (size : Int) (h : 1 ≤ size) :
    boundaryNext size (IVec3.splat (-1)) = .yield ⟨0, 0, 0⟩ := by
  rw [boundaryNext]
  rw [if_neg, if_pos rfl]
  simp only [IVec3.splat, IVec3.mk.injEq]
  omega

set_option maxHeartbeats 2000000 in
theorem bnext_z_step (size x y z : Int)
    (hx0 : 0 ≤ x) (hx1 : x ≤ size - 1) (hy0 : 0 ≤ y) (hy1 : y ≤ size - 1)
    (hz0 : 0 ≤ z) (hz1 : z ≤ size - 2)
    (hsh : x = 0 ∨ x = size - 1 ∨ y = 0 ∨ y = size - 1) :
    boundaryNext size ⟨x, y, z⟩ = .yield ⟨x, y, z + 1⟩ := by
  simp only [boundaryNext, IVec3.splat, IVec3.mk.injEq]
  split_ifs <;>
    first
      | rfl
      | (exfalso; omega)
      | (simp only [BStep.yield.injEq, IVec3.mk.injEq]; omega)

set_option maxHeartbeats 2000000 in
theorem bnext_y_step (size x y : Int)
    (hx0 : 0 ≤ x) (hx1 : x ≤ size - 1) (hy0 : 0 ≤ y) (hy1 : y ≤ size - 2) :
    boundaryNext size ⟨x, y, size - 1⟩ = .yield ⟨x, y + 1, 0⟩ := by
  simp only [boundaryNext, IVec3.splat, IVec3.mk.injEq]
  split_ifs <;>
    first
      | rfl
      | (exfalso; omega)
      | (simp only [BStep.yield.injEq, IVec3.mk.injEq]; omega)

set_option maxHeartbeats 2000000 in
theorem bnext_x_step (size x : Int)
    (hx0 : 0 ≤ x) (hx1 : x ≤ size - 2) :
    boundaryNext size ⟨x, size - 1, size - 1⟩ = .yield ⟨x + 1, 0, 0⟩ := by
  simp only [boundaryNext, IVec3.splat, IVec3.mk.injEq]
  split_ifs <;>
    first
      | rfl
      | (exfalso; omega)
      | (simp only [BStep.yield.injEq, IVec3.mk.injEq]; omega)

set_option maxHeartbeats 2000000 in
theorem bnext_jump (size x y : Int)
    (hx : 1 ≤ x ∧ x ≤ size - 2) (hy : 1 ≤ y ∧ y ≤ size - 2) :
    boundaryNext size ⟨x, y, 0⟩ = .yield ⟨x, y, size - 1⟩ := by
  simp only [boundaryNext, IVec3.splat, IVec3.mk.injEq]
  split_ifs <;>
    first
      | rfl
      | (exfalso; omega)
      | (simp only [BStep.yield.injEq, IVec3.mk.injEq]; omega)

/-- The shell positions of the cube whose linear index is at least `k`,
in enumeration order. -/
def shellSuffix (n k : Nat) : List IVec3 :=
  ((List.range (n * n * n - k)).map (fun j => posOf n (k + j))).filter
    (onShell (n : Int))

theorem shellSuffix_unfold (n k : Nat) (hk : k < n * n * n) :
    shellSuffix n k =
      (if onShell (n : Int) (posOf n k) then [posOf n k] else [])
        ++ shellSuffix n (k + 1) := by
  have hm : n * n * n - k = (n * n * n - (k + 1)) + 1 := by omega
  rw [shellSuffix, hm, List.range_succ_eq_map]
  simp only [List.map_cons, List.filter_cons, List.map_map, Nat.add_zero]
  have htail : (List.range (n * n * n - (k + 1))).map
        ((fun j => posOf n (k + j)) ∘ Nat.succ)
      = (List.range (n * n * n - (k + 1))).map
          (fun j => posOf n (k + 1 + j)) := by
    apply List.map_congr_left
    intro j hj
    simp only [Function.comp_apply]
    congr 1
    omega
  rw [htail]
  by_cases hsh : onShell (n : Int) (posOf n k) = true
  · rw [if_pos hsh, if_pos hsh]
    rfl
  · rw [if_neg hsh, if_neg hsh]
    rfl

theorem shellSuffix_skip (n : Nat) :
    ∀ (d k : Nat), k + d ≤ n * n * n →
      (∀ j, k ≤ j → j < k + d → onShell (n : Int) (posOf n j) = false) →
      shellSuffix n k = shellSuffix n (k + d) := by
  intro d
  induction d with
  | zero => intro k _ _; rfl
  | succ d ih =>
    intro k hle hskip
    rw [shellSuffix_unfold n k (by omega), if_neg, List.nil_append]
    · have hnext := ih (k + 1) (by omega)
        (fun j hj1 hj2 => hskip j (by omega) (by omega))
      rw [hnext]
      congr 1
      omega
    · rw [hskip k (Nat.le_refl k) (by omega)]
      simp

theorem IVec3.ext_int3 {u v : IVec3} (hx : u.x = v.x) (hy : u.y = v.y)
    (hz : u.z = v.z) : u = v := by
  cases u
  cases v
  rw [IVec3.mk.injEq]
  exact ⟨hx, hy, hz⟩

set_option maxHeartbeats 2000000 in
theorem boundary_next_spec (n : Nat) (hn : 1 ≤ n) (X Y Z : Nat)
    (hX : X < n) (hY : Y < n) (hZ : Z < n)
    (hsh : onShell (n : Int) ⟨(X : Int), (Y : Int), (Z : Int)⟩ = true)
    (hlast : ¬(X = n - 1 ∧ Y = n - 1 ∧ Z = n - 1)) :
    ∃ d : Nat, 1 ≤ d ∧ (X * n + Y) * n + Z + d < n * n * n ∧
      boundaryNext (n : Int) ⟨(X : Int), (Y : Int), (Z : Int)⟩
        = .yield (posOf n ((X * n + Y) * n + Z + d)) ∧
      onShell (n : Int) (posOf n ((X * n + Y) * n + Z + d)) = true ∧
      ∀ j : Nat, 0 < j → j < d →
        onShell (n : Int) (posOf n ((X * n + Y) * n + Z + j)) = false := by
  simp only [onShell, Bool.or_eq_true, beq_iff_eq] at hsh
  by_cases hZtop : Z = n - 1
  · by_cases hYtop : Y = n - 1
    · -- x-advance: p = (X, n-1, n-1) with X < n-1
      have hX2 : X < n - 1 := by
        rcases Nat.lt_or_ge X (n - 1) with h | h
        · exact h
        · exact absurd ⟨by omega, hYtop, hZtop⟩ hlast
      have hE : (X * n + Y) * n + Z + 1 = ((X + 1) * n + 0) * n + 0 := by
        subst hYtop hZtop
        cases n with
        | zero => omega
        | succ n' =>
          simp only [Nat.succ_sub_one]
          ring
      refine ⟨1, Nat.le_refl 1, ?_, ?_, ?_, ?_⟩
      · rw [hE]
        exact nat_encode_lt n n n (X + 1) 0 0 (by omega) (by omega) (by omega)
      · rw [hE, posOf_encode n (X + 1) 0 0 (by omega) (by omega) (by omega)]
        have hzc : (Z : Int) = (n : Int) - 1 := by omega
        have hyc : (Y : Int) = (n : Int) - 1 := by omega
        rw [hzc, hyc, bnext_x_step (n : Int) X (by omega) (by omega)]
        exact congrArg BStep.yield
          (IVec3.ext_int3 (show (X : Int) + 1 = ((X + 1 : Nat) : Int) by omega)
            (show (0 : Int) = ((0 : Nat) : Int) by omega)
            (show (0 : Int) = ((0 : Nat) : Int) by omega))
      · rw [hE, posOf_encode n (X + 1) 0 0 (by omega) (by omega) (by omega)]
        simp only [onShell, Bool.or_eq_true, beq_iff_eq]
        omega
      · intro j hj1 hj2
        omega
    · -- y-advance: p = (X, Y, n-1) with Y < n-1
      have hY2 : Y < n - 1 := by omega
      have hE : (X * n + Y) * n + Z + 1 = (X * n + (Y + 1)) * n + 0 := by
        subst hZtop
        cases n with
        | zero => omega
        | succ n' =>
          simp only [Nat.succ_sub_one]
          ring
      refine ⟨1, Nat.le_refl 1, ?_, ?_, ?_, ?_⟩
      · rw [hE]
        exact nat_encode_lt n n n X (Y + 1) 0 hX (by omega) (by omega)
      · rw [hE, posOf_encode n X (Y + 1) 0 hX (by omega) (by omega)]
        have hzc : (Z : Int) = (n : Int) - 1 := by omega
        rw [hzc, bnext_y_step (n : Int) X Y (by omega) (by omega) (by omega)
          (by omega)]
        exact congrArg BStep.yield
          (IVec3.ext_int3 (show (X : Int) = ((X : Nat) : Int) by omega)
            (show (Y : Int) + 1 = ((Y + 1 : Nat) : Int) by omega)
            (show (0 : Int) = ((0 : Nat) : Int) by omega))
      · rw [hE, posOf_encode n X (Y + 1) 0 hX (by omega) (by omega)]
        simp only [onShell, Bool.or_eq_true, beq_iff_eq]
        omega
      · intro j hj1 hj2
        omega
  · -- Z < n - 1
    have hZ2 : Z < n - 1 := by omega
    by_cases hXY : X = 0 ∨ X = n - 1 ∨ Y = 0 ∨ Y = n - 1
    · -- z-advance
      refine ⟨1, Nat.le_refl 1, ?_, ?_, ?_, ?_⟩
      · have : (X * n + Y) * n + Z + 1 = (X * n + Y) * n + (Z + 1) := rfl
        rw [this]
        exact nat_encode_lt n n n X Y (Z + 1) hX hY (by omega)
      · have : (X * n + Y) * n + Z + 1 = (X * n + Y) * n + (Z + 1) := rfl
        rw [this, posOf_encode n X Y (Z + 1) hX hY (by omega)]
        rw [bnext_z_step (n : Int) X Y Z (by omega) (by omega) (by omega)
          (by omega) (by omega) (by omega) (by omega)]
        exact congrArg BStep.yield
          (IVec3.ext_int3 (show (X : Int) = ((X : Nat) : Int) by omega)
            (show (Y : Int) = ((Y : Nat) : Int) by omega)
            (show (Z : Int) + 1 = ((Z + 1 : Nat) : Int) by omega))
      · have : (X * n + Y) * n + Z + 1 = (X * n + Y) * n + (Z + 1) := rfl
        rw [this, posOf_encode n X Y (Z + 1) hX hY (by omega)]
        simp only [onShell, Bool.or_eq_true, beq_iff_eq]
        omega
      · intro j hj1 hj2
        omega
    · -- interior x and y: the z = 0 → z = n-1 jump
      push_neg at hXY
      obtain ⟨hX0, hX1, hY0, hY1⟩ := hXY
      have hZ0 : Z = 0 := by omega
      have hn3 : 3 ≤ n := by omega
      refine ⟨n - 1, by omega, ?_, ?_, ?_, ?_⟩
      · have hE : (X * n + Y) * n + Z + (n - 1)
            = (X * n + Y) * n + (n - 1) := by omega
        rw [hE]
        exact nat_encode_lt n n n X Y (n - 1) hX hY (by omega)
      · have hE : (X * n + Y) * n + Z + (n - 1)
            = (X * n + Y) * n + (n - 1) := by omega
        rw [hE, posOf_encode n X Y (n - 1) hX hY (by omega)]
        have hzc : (Z : Int) = 0 := by omega
        rw [hzc, bnext_jump (n : Int) X Y ⟨by omega, by omega⟩
          ⟨by omega, by omega⟩]
        exact congrArg BStep.yield
          (IVec3.ext_int3 (show (X : Int) = ((X : Nat) : Int) by omega)
            (show (Y : Int) = ((Y : Nat) : Int) by omega)
            (show (n : Int) - 1 = ((n - 1 : Nat) : Int) by omega))
      · have hE : (X * n + Y) * n + Z + (n - 1)
            = (X * n + Y) * n + (n - 1) := by omega
        rw [hE, posOf_encode n X Y (n - 1) hX hY (by omega)]
        simp only [onShell, Bool.or_eq_true, beq_iff_eq]
        omega
      · intro j hj1 hj2
        have hE : (X * n + Y) * n + Z + j = (X * n + Y) * n + j := by omega
        rw [hE, posOf_encode n X Y j hX hY (by omega)]
        rw [Bool.eq_false_iff]
        simp only [ne_eq, onShell, Bool.or_eq_true, beq_iff_eq]
        push_neg
        omega

theorem gen_eq_suffix (n : Nat) (hn : 1 ≤ n) :
    ∀ m k fuel : Nat, k < n * n * n → k + m = n * n * n →
      m ≤ fuel → onShell (n : Int) (posOf n k) = true →
      genBoundary (n : Int) fuel (posOf n k) = shellSuffix n (k + 1) := by
  intro m
  induction m using Nat.strong_induction_on with
  | _ m ih =>
    intro k fuel hk hkm hfuel hsh
    have hm1 : 1 ≤ m := by omega
    obtain ⟨f, rfl⟩ : ∃ f, fuel = f + 1 := ⟨fuel - 1, by omega⟩
    have hb := linear_index_to_volume_below k ⟨n, n, n⟩ hk
    set X := (linear_index_to_volume k ⟨n, n, n⟩).x with hXdef
    set Y := (linear_index_to_volume k ⟨n, n, n⟩).y with hYdef
    set Z := (linear_index_to_volume k ⟨n, n, n⟩).z with hZdef
    have hux : X < n := hb.1
    have huy : Y < n := hb.2.1
    have huz : Z < n := hb.2.2
    have henc : (X * n + Y) * n + Z = k := by
      have h0 := linear_to_volume_to_linear k ⟨n, n, n⟩ hk
      have h1 : volume_index_to_linear ⟨n, n, n⟩
          (linear_index_to_volume k ⟨n, n, n⟩) = (X * n + Y) * n + Z :=
        volume_index_to_linear_eq ⟨n, n, n⟩ _
      rw [h1] at h0
      exact h0
    have hpos : posOf n k = ⟨(X : Int), (Y : Int), (Z : Int)⟩ := by
      rw [← henc]
      exact posOf_encode n X Y Z hux huy huz
    by_cases hlast : X = n - 1 ∧ Y = n - 1 ∧ Z = n - 1
    · obtain ⟨hx1, hy1, hz1⟩ := hlast
      have hk1 : k + 1 = n * n * n := by
        rw [← henc, hx1, hy1, hz1]
        cases n with
        | zero => omega
        | succ m' =>
          simp only [Nat.succ_sub_one]
          have hr : ((m' * (m' + 1) + m') * (m' + 1) + m') + 1
              = (m' + 1) * (m' + 1) * (m' + 1) := by ring
          omega
      have hsplat : posOf n k = IVec3.splat ((n : Int) - 1) := by
        rw [hpos, hx1, hy1, hz1, IVec3.splat]
        have hc : ((n - 1 : Nat) : Int) = (n : Int) - 1 := by omega
        rw [hc]
      rw [hsplat]
      simp only [genBoundary, bnext_done]
      rw [shellSuffix, show n * n * n - (k + 1) = 0 from by omega]
      rfl
    · have hspec := boundary_next_spec n hn X Y Z hux huy huz
        (by rw [← hpos]; exact hsh) hlast
      obtain ⟨d, hd1, hdlt, hyield, hshq, hskip⟩ := hspec
      rw [henc] at hdlt hyield hshq hskip
      rw [hpos]
      simp only [genBoundary, hyield]
      have hih := ih (m - d) (by omega) (k + d) f (by omega) (by omega)
        (by omega) hshq
      rw [hih]
      have hskip2 : shellSuffix n (k + 1) = shellSuffix n (k + d) := by
        have hs := shellSuffix_skip n (d - 1) (k + 1) (by omega)
          (fun j hj1 hj2 => by
            have hj := hskip (j - k) (by omega) (by omega)
            rw [show k + (j - k) = j from by omega] at hj
            exact hj)
        rw [show k + 1 + (d - 1) = k + d from by omega] at hs
        exact hs
      rw [hskip2, shellSuffix_unfold n (k + d) (by omega), if_pos hshq]
      rfl

theorem cubeBoundary_eq_filter (size : Int) (h : 1 ≤ size) :
    cubeBoundaryList size
      = (range3dList ⟨0, 0, 0⟩ ⟨size, size, size⟩).filter (onShell size) := by
  set n := size.toNat with hndef
  have hs : ((n : Nat) : Int) = size := Int.toNat_of_nonneg (by omega)
  have hn : 1 ≤ n := by omega
  have hcube : 0 < n * n * n := Nat.mul_pos (Nat.mul_pos hn hn) hn
  rw [← hs, cubeBoundaryList]
  rw [show ((n : Int)).toNat = n from by omega]
  have hfirst : boundaryNext (n : Int) (IVec3.splat (-1)) = .yield ⟨0, 0, 0⟩ :=
    bnext_initial _ (by omega)
  simp only [genBoundary, hfirst]
  have hfull : (range3dList ⟨0, 0, 0⟩ ⟨(n : Int), (n : Int), (n : Int)⟩).filter
      (onShell (n : Int)) = shellSuffix n 0 := by
    rw [shellSuffix]
    congr 1
    rw [range3dList]
    have hszs : Range3d.sizesOf ⟨0, 0, 0⟩ ⟨(n : Int), (n : Int), (n : Int)⟩
        = ⟨n, n, n⟩ := by
      simp [Range3d.sizesOf]
    rw [hszs]
    rw [show UVec3.volume ⟨n, n, n⟩ = n * n * n - 0 from by
      simp [UVec3.volume]]
    apply List.map_congr_left
    intro j hj
    simp [posOf]
  rw [hfull]
  have hzero : (⟨0, 0, 0⟩ : IVec3) = posOf n 0 := by
    have hz := posOf_encode n 0 0 0 (by omega) (by omega) (by omega)
    rw [show (0 * n + 0) * n + 0 = 0 from by ring] at hz
    rw [hz]
    simp
  rw [hzero]
  have hsh0 : onShell (n : Int) (posOf n 0) = true := by
    rw [← hzero]
    simp [onShell]
  rw [gen_eq_suffix n hn (n * n * n) 0 (n * n * n) hcube (by omega)
    (Nat.le_refl _) hsh0]
  rw [shellSuffix_unfold n 0 hcube, if_pos hsh0]
  rfl

/-- C7: for every `size ≥ 1`, the `CubeBoundary(size)` iterator yields
exactly the positions of `Range3d(0..size)` in which at least one
coordinate is `0` or `size - 1`, in exactly the same order as filtering the
full enumeration, with no duplicates and no missing boundary position. -/
theorem C7_cube_boundary (size : Int) (h : 1 ≤ size) :
    cubeBoundaryList size
      = (range3dList ⟨0, 0, 0⟩ ⟨size, size, size⟩).filter (onShell size) ∧
    (cubeBoundaryList size).Nodup ∧
    (∀ p : IVec3, p ∈ cubeBoundaryList size ↔
      (p ∈ range3dList ⟨0, 0, 0⟩ ⟨size, size, size⟩ ∧
        onShell size p = true)) := by
  have heq := cubeBoundary_eq_filter size h
  refine ⟨heq, ?_, ?_⟩
  · rw [heq]
    exact List.Nodup.filter _ (range3dList_nodup _ _)
  · intro p
    rw [heq, List.mem_filter]

theorem C7_cube_boundary_witness :
    (1 : Int) ≤ 2 ∧
    cubeBoundaryList 2
      = (range3dList ⟨0, 0, 0⟩ ⟨2, 2, 2⟩).filter (onShell 2) :=
  ⟨by decide, (C7_cube_boundary 2 (by decide)).1⟩

/-! ## Mesh builder (`mesh.rs`, claims C5 and C9)

`make_high_resolution` and `make_low_resolution` are in the repository;
the `Chunk` voxel storage they consume is not, so its interface is
modelled from the specification (§6).  Vertices carry no geometric data in
the embedding: each visible face contributes six `(face offset, position)`
tags, so "empty vertex buffer" is the empty list. -/

/-- `FillType` (fill-type classification, §6). -/
inductive FillType where
  | Unspecified
  | AllSame (id : Nat)
deriving DecidableEq, Repr

/-- `ChunkOption`: result of a global voxel lookup. -/
inductive ChunkOpt (α : Type) where
  | Voxel (v : α)
  | OutsideChunk
  | Failed
deriving DecidableEq, Repr

/-- A voxel: its material id and its global position. -/
structure Voxel where
  id : Nat
  pos : IVec3
deriving DecidableEq, Repr

/-- Modelled from the spec: the air material id (`AIR_VOXEL_DATA.id`; the
voxel data table is not in the repository, and no claim depends on the
value). -/
def AIR_VOXEL_ID : Nat := 0

/-- `Voxel::is_air`. -/
def Voxel.is_air (v : Voxel) : Bool := v.id == AIR_VOXEL_ID

/-- `VoxelColor`: aggregated sub-block color for the low-resolution path. -/
inductive VoxelColor where
  | Transparent
  | Colored (color : Nat)
deriving DecidableEq, Repr

/-- `Sides<T>`: fixed 6-element container, indexed in the order
`back[0] front[1] top[2] bottom[3] right[4] left[5]` (`iterator.rs`). -/
structure Sides (α : Type) where
  inner : Fin 6 → α

/-- `Sides::by_offset`: map a unit offset to its slot (`Ok`), any other
offset is an error (`none`). -/
def Sides.by_offset {α : Type} (s : Sides α) (offset : IVec3) : Option α :=
  if offset = ⟨1, 0, 0⟩ then some (s.inner 0)
  else if offset = ⟨-1, 0, 0⟩ then some (s.inner 1)
  else if offset = ⟨0, 1, 0⟩ then some (s.inner 2)
  else if offset = ⟨0, -1, 0⟩ then some (s.inner 3)
  else if offset = ⟨0, 0, 1⟩ then some (s.inner 4)
  else if offset = ⟨0, 0, -1⟩ then some (s.inner 5)
  else none

/-- Modelled from the spec: the external collaborator `Chunk` (§6) — its
source is not in the repository.  The mesh builder consumes `is_empty()`,
`is_filled()`, the fill-type classification, the chunk position, local and
global voxel lookup, and the LOD-aggregated sub-block iterator
(`low_voxel_iter`). -/
structure Chunk where
  is_empty : Bool
  is_filled : Bool
  fillType : FillType
  pos : IVec3
  get_voxel_local : IVec3 → Option Voxel
  get_voxel_global : IVec3 → ChunkOpt Voxel
  low_voxel_iter : Nat → List (VoxelColor × IVec3)

/-- Modelled from the spec: `Chunk::SIZE`, the fixed cubic chunk edge
length (the spec's examples use 16; no claim depends on the value). -/
def Chunk.SIZE : Nat := 16

/-- Adjacent chunks per side (`ChunkAdj = Sides<Option<ChunkRef>>`). -/
def ChunkAdj : Type := Sides (Option Chunk)

/-- Modelled from the spec: `Chunk::local_pos_iter()` enumerates every
local voxel position of the chunk (full iteration over the cube). -/
def Chunk.local_pos_iter : List IVec3 :=
  range3dList ⟨0, 0, 0⟩ (IVec3.splat (Chunk.SIZE : Int))

/-- Modelled from the spec: `Chunk::is_adj_filled(adj)` — every neighbor,
where present, also reports filled. -/
def Chunk.is_adj_filled (adj : ChunkAdj) : Bool :=
  (List.finRange 6).all (fun i =>
    match adj.inner i with
    | none => true
    | some c => c.is_filled)

/-- Modelled from the spec: local↔global position conversion given the
chunk size (`Chunk::local_to_global_pos`). -/
def Chunk.local_to_global_pos (chunkPos lpos : IVec3) : IVec3 :=
  ⟨chunkPos.x * (Chunk.SIZE : Int) + lpos.x,
   chunkPos.y * (Chunk.SIZE : Int) + lpos.y,
   chunkPos.z * (Chunk.SIZE : Int) + lpos.z⟩

/-- `Range3d::adj_iter(pos)` (`iterator.rs`): the six axis-aligned unit
offsets of a position, in source order. -/
def adj_iter (pos : IVec3) : List IVec3 :=
  [pos + ⟨1, 0, 0⟩, pos + ⟨-1, 0, 0⟩, pos + ⟨0, 1, 0⟩,
   pos + ⟨0, -1, 0⟩, pos + ⟨0, 0, 1⟩, pos + ⟨0, 0, -1⟩]

/-- Modelled from the spec: `CubeDetailed::by_offset` emits one visible
face as a quad — two triangles, six vertices; the float vertex geometry is
abstracted to `(face offset, voxel position)` tags. -/
def cubeDetailedByOffset (offset pos : IVec3) : List (IVec3 × IVec3) :=
  List.replicate 6 (offset, pos)

/-- Modelled from the spec: `CubeLowered::by_offset`, as
`cubeDetailedByOffset` (the color and float center are abstracted away). -/
def cubeLoweredByOffset (offset pos : IVec3) (color : Nat) :
    List (IVec3 × IVec3) :=
  List.replicate 6 (offset, pos)

/-- `make_high_resolution(chunk, adj, flags)` (`mesh.rs` lines 102–184),
with logging dropped and vertices abstracted to face tags. -/
def make_high_resolution (chunk : Chunk) (adj : ChunkAdj) :
    List (IVec3 × IVec3) :=
  let is_filled_and_blocked :=
    chunk.is_filled && Chunk.is_adj_filled adj
  if chunk.is_empty || is_filled_and_blocked then []
  else
    let pos_iter : List IVec3 :=
      match chunk.fillType with
      | .Unspecified => Chunk.local_pos_iter
      | .AllSame id =>
        if id == AIR_VOXEL_ID then []
        else cubeBoundaryList (Chunk.SIZE : Int)
    ((pos_iter.filterMap chunk.get_voxel_local).filter
        (fun voxel => !voxel.is_air)).flatMap
      (fun voxel =>
        let side_iter := (adj_iter ⟨0, 0, 0⟩).filter (fun offset =>
          match chunk.get_voxel_global (voxel.pos + offset) with
          | .Voxel v => v.is_air
          | .OutsideChunk =>
            match (Sides.by_offset adj offset).join with
            | none => true
            | some c =>
              match c.get_voxel_global (voxel.pos + offset) with
              | .Voxel v => v.is_air
              | .OutsideChunk => true
              | .Failed => true
          | .Failed => true)
        side_iter.flatMap (fun offset => cubeDetailedByOffset offset voxel.pos))

/-- The `is_blocking_voxel` closure of `make_low_resolution` (`mesh.rs`
lines 220–243); the `unreachable!` arm (falling out of an adjacent chunk)
is modelled as not blocking, and logging is dropped. -/
def is_blocking_voxel (chunk : Chunk) (adj : ChunkAdj)
    (pos offset : IVec3) : Bool :=
  match chunk.get_voxel_global pos with
  | .OutsideChunk =>
    match (Sides.by_offset adj offset).join with
    | none => false
    | some c =>
      match c.get_voxel_global pos with
      | .OutsideChunk => false
      | .Voxel v => !v.is_air
      | .Failed => false
  | .Voxel v => !v.is_air
  | .Failed => false

/-- The `is_on_surface` computation of `is_blocked_subchunk` (`mesh.rs`
lines 249–257): the face lies on the chunk's outer boundary. -/
def isOnSurface (local_pos : IVec3) (lod : Nat) (offset : IVec3) : Bool :=
  let sub_chunk_size : Int := 2 ^ lod
  if offset = ⟨-1, 0, 0⟩ ∧ local_pos.x = 0 then true
  else if offset = ⟨0, -1, 0⟩ ∧ local_pos.y = 0 then true
  else if offset = ⟨0, 0, -1⟩ ∧ local_pos.z = 0 then true
  else if offset = ⟨1, 0, 0⟩ ∧ local_pos.x + sub_chunk_size = (Chunk.SIZE : Int)
    then true
  else if offset = ⟨0, 1, 0⟩ ∧ local_pos.y + sub_chunk_size = (Chunk.SIZE : Int)
    then true
  else if offset = ⟨0, 0, 1⟩ ∧ local_pos.z + sub_chunk_size = (Chunk.SIZE : Int)
    then true
  else false

/-- The voxel positions across one sub-block face:
`Range3d::from(start_pos..end_pos)` with
`start_pos = global_pos + offset * sub_chunk_size` and
`end_pos = global_pos + (offset + 1) * sub_chunk_size`. -/
def acrossList (global_pos : IVec3) (lod : Nat) (offset : IVec3) :
    List IVec3 :=
  let sub_chunk_size : Int := 2 ^ lod
  range3dList (global_pos + IVec3.smul offset sub_chunk_size)
    (global_pos + IVec3.smul (offset + ⟨1, 1, 1⟩) sub_chunk_size)

/-- The `is_blocked_subchunk` closure of `make_low_resolution` (`mesh.rs`
lines 245–267). -/
def is_blocked_subchunk (chunk : Chunk) (adj : ChunkAdj)
    (global_pos local_pos : IVec3) (lod : Nat) (offset : IVec3) : Bool :=
  if ((Sides.by_offset adj offset).join).isSome
      && isOnSurface local_pos lod offset then
    (acrossList global_pos lod offset).all
      (fun pos => is_blocking_voxel chunk adj pos offset)
  else
    (acrossList global_pos lod offset).any
      (fun pos => is_blocking_voxel chunk adj pos offset)

/-- Faces emitted for one non-transparent sub-block: the unit offsets not
blocked, each as a quad (`mesh.rs` lines 269–280). -/
def subBlockFaces (chunk : Chunk) (adj : ChunkAdj)
    (global_pos local_pos : IVec3) (lod : Nat) (color : Nat) :
    List (IVec3 × IVec3) :=
  ((adj_iter ⟨0, 0, 0⟩).filter
      (fun o => !is_blocked_subchunk chunk adj global_pos local_pos lod o)).flatMap
    (fun offset => cubeLoweredByOffset offset global_pos color)

/-- `make_low_resolution(chunk, adj, lod, flags)` (`mesh.rs` lines
186–285). -/
def make_low_resolution (chunk : Chunk) (adj : ChunkAdj) (lod : Nat) :
    List (IVec3 × IVec3) :=
  if lod == 0 then make_high_resolution chunk adj
  else
    let is_filled_and_blocked :=
      chunk.is_filled && Chunk.is_adj_filled adj
    if chunk.is_empty || is_filled_and_blocked then []
    else
      let sub_chunk_size : Int := 2 ^ lod
      ((chunk.low_voxel_iter lod).filterMap (fun vp =>
          match vp.1 with
          | .Transparent => none
          | .Colored color => some (color, vp.2))).flatMap
        (fun cp =>
          let local_pos := IVec3.smul cp.2 sub_chunk_size
          let global_pos := Chunk.local_to_global_pos chunk.pos local_pos
          subBlockFaces chunk adj global_pos local_pos lod cp.1)

/-- C5: `make_high_resolution`, and `make_low_resolution` with `lod > 0`,
emit an empty vertex buffer whenever the chunk reports itself empty, or
reports itself filled and every (present) adjacent neighbor also reports
filled; in particular a chunk uniformly filled with non-air material whose
six neighbors all report filled yields zero geometry. -/
theorem C5_fast_path (chunk : Chunk) (adj : ChunkAdj) (lod : Nat)
    (hlod : 1 ≤ lod)
    (hcond : chunk.is_empty = true ∨
      (chunk.is_filled = true ∧ Chunk.is_adj_filled adj = true)) :
    make_high_resolution chunk adj = [] ∧
    make_low_resolution chunk adj lod = [] := by
  have hbool :
      (chunk.is_empty || (chunk.is_filled && Chunk.is_adj_filled adj))
        = true := by
    rcases hcond with hc | hc
    · simp [hc]
    · simp [hc.1, hc.2]
  constructor
  · simp only [make_high_resolution]
    rw [if_pos hbool]
  · simp only [make_low_resolution]
    rw [if_neg (by simp; omega), if_pos hbool]

/-- A uniformly filled (non-air) chunk reporting itself filled, used as
the concrete instance of C5's "in particular" scenario. -/
def filledChunk : Chunk where
  is_empty := false
  is_filled := true
  fillType := .AllSame 5
  pos := ⟨0, 0, 0⟩
  get_voxel_local := fun p => some ⟨5, p⟩
  get_voxel_global := fun _ => .OutsideChunk
  low_voxel_iter := fun _ => []

/-- All six neighbors present and filled. -/
def filledAdj : ChunkAdj := ⟨fun _ => some filledChunk⟩

theorem C5_fast_path_witness :
    (1 : Nat) ≤ 1 ∧
    (filledChunk.is_empty = true ∨
      (filledChunk.is_filled = true ∧ Chunk.is_adj_filled filledAdj = true)) ∧
    make_high_resolution filledChunk filledAdj = [] ∧
    make_low_resolution filledChunk filledAdj 1 = [] := by
  have h := C5_fast_path filledChunk filledAdj 1 (Nat.le_refl 1)
    (Or.inr ⟨rfl, by decide⟩)
  exact ⟨Nat.le_refl 1, Or.inr ⟨rfl, by decide⟩, h.1, h.2⟩

/-- C9: in the low-resolution path, for every sub-block and each of its
six faces: when the face lies on the chunk's outer boundary and a neighbor
chunk handle is present for that direction, the face is culled (blocked)
iff **all** adjacent voxels across it are blocking — so visibility requires
some non-blocking voxel; otherwise the face is culled iff **any** voxel
across it is blocking; and a face is emitted in the sub-block's quad list
exactly when it is one of the six unit offsets and not blocked. -/
theorem C9_subchunk_visibility (chunk : Chunk) (adj : ChunkAdj)
    (global_pos local_pos : IVec3) (lod color : Nat) (offset : IVec3) :
    (isOnSurface local_pos lod offset = true →
      ((Sides.by_offset adj offset).join).isSome = true →
      is_blocked_subchunk chunk adj global_pos local_pos lod offset
        = (acrossList global_pos lod offset).all
            (fun pos => is_blocking_voxel chunk adj pos offset)) ∧
    ((isOnSurface local_pos lod offset = false ∨
        ((Sides.by_offset adj offset).join).isSome = false) →
      is_blocked_subchunk chunk adj global_pos local_pos lod offset
        = (acrossList global_pos lod offset).any
            (fun pos => is_blocking_voxel chunk adj pos offset)) ∧
    ((offset, global_pos)
        ∈ subBlockFaces chunk adj global_pos local_pos lod color ↔
      (offset ∈ adj_iter ⟨0, 0, 0⟩ ∧
        is_blocked_subchunk chunk adj global_pos local_pos lod offset
          = false)) := by
  refine ⟨?_, ?_, ?_⟩
  · intro hsurf hsome
    rw [is_blocked_subchunk, if_pos (by rw [hsurf, hsome]; rfl)]
  · intro hcases
    rw [is_blocked_subchunk, if_neg]
    rcases hcases with hc | hc <;> rw [hc] <;> simp
  · rw [subBlockFaces]
    constructor
    · intro hmem
      simp only [List.mem_flatMap, List.mem_filter, cubeLoweredByOffset,
        List.mem_replicate] at hmem
      obtain ⟨o, ⟨homem, hblock⟩, -, heq⟩ := hmem
      have ho : o = offset := by
        have hfst := congrArg Prod.fst heq
        simpa using hfst.symm
      subst ho
      exact ⟨homem, by simpa using hblock⟩
    · rintro ⟨hmem, hblock⟩
      simp only [List.mem_flatMap, List.mem_filter, cubeLoweredByOffset,
        List.mem_replicate]
      exact ⟨offset, ⟨hmem, by simp [hblock]⟩, by omega, rfl⟩

/-- A chunk with no voxel data, used as the concrete C9 instance. -/
def emptyTestChunk : Chunk where
  is_empty := true
  is_filled := false
  fillType := .Unspecified
  pos := ⟨0, 0, 0⟩
  get_voxel_local := fun _ => none
  get_voxel_global := fun _ => .Failed
  low_voxel_iter := fun _ => []

/-- No neighbors present. -/
def emptyTestAdj : ChunkAdj := ⟨fun _ => none⟩

theorem C9_subchunk_visibility_witness :
    (isOnSurface ⟨0, 0, 0⟩ 1 ⟨1, 0, 0⟩ = false ∨
      ((Sides.by_offset emptyTestAdj ⟨1, 0, 0⟩).join).isSome = false) ∧
    is_blocked_subchunk emptyTestChunk emptyTestAdj ⟨0, 0, 0⟩ ⟨0, 0, 0⟩ 1
        ⟨1, 0, 0⟩
      = (acrossList ⟨0, 0, 0⟩ 1 ⟨1, 0, 0⟩).any
          (fun pos => is_blocking_voxel emptyTestChunk emptyTestAdj pos
            ⟨1, 0, 0⟩) :=
  ⟨Or.inl (by decide),
    (C9_subchunk_visibility emptyTestChunk emptyTestAdj ⟨0, 0, 0⟩ ⟨0, 0, 0⟩
      1 0 ⟨1, 0, 0⟩).2.1 (Or.inl (by decide))⟩

theorem C8_linear_volume_inverse_witness :
    ((5 : Nat) < UVec3.volume ⟨2, 3, 4⟩) ∧
    volume_index_to_linear ⟨2, 3, 4⟩ (linear_index_to_volume 5 ⟨2, 3, 4⟩)
      = 5 :=
  ⟨by decide, ((C8_linear_volume_inverse ⟨2, 3, 4⟩).1 5 (by decide)).2⟩

end Terramine
